import Mathlib

/-!
Verification of the loan ledger and repayment allocation engine of
astrbot_plugin_fishing.

The embedding below is a shallow model of the Python sources:
  - src/core/domain/loan_models.py          (the Loan record and its derived predicates)
  - src/core/repositories/sqlite_loan_repo.py (the SQL queries and updates on the loans table)
  - src/core/services/loan_service.py       (the service operations)

Modelling conventions:
  - Timestamps are abstract clock ticks (Nat); the bookkeeping columns
    created_at and updated_at are omitted because nothing observable depends
    on them.
  - The user store (sqlite_user_repo.py is not part of the provided sources)
    is modelled from the spec as a list of rows (user_id, coins, max_coins);
    SQL UPDATE statements on it become list maps keyed on user_id.
  - Python float values are dyadic rationals; float arithmetic is modelled by
    exact rational arithmetic followed by rounding to a 53-bit significand
    with ties to even (IEEE-754 binary64, normal range), see round53 below.
  - Each service operation returns (success flag, post-state); the chat
    message strings are not modelled.
-/

namespace LoanVerif

/-- Loan record, from the dataclass in src/core/domain/loan_models.py.
Status is one of the source's string literals: pending, active, overdue, paid.
due_date is populated only for system loans created by borrow_from_system. -/
structure Loan where
  loan_id : Nat
  lender_id : String
  borrower_id : String
  principal : Int
  interest_rate : ℚ
  borrowed_at : Nat
  due_amount : Int
  repaid_amount : Int
  status : String
  due_date : Option Nat
deriving DecidableEq

/-- Loan.remaining_amount from loan_models.py: max(0, due_amount - repaid_amount). -/
def Loan.remaining_amount (l : Loan) : Int :=
  max 0 (l.due_amount - l.repaid_amount)

/-- Loan.is_system_loan from loan_models.py. -/
def Loan.is_system_loan (l : Loan) : Bool :=
  decide (l.lender_id = "SYSTEM")

/-- Loan.is_overdue from loan_models.py: only system loans with a due_date and
a non-paid status are overdue, once the clock has passed the due date. -/
def Loan.is_overdue (l : Loan) (now : Nat) : Bool :=
  if l.lender_id = "SYSTEM" then
    match l.due_date with
    | none => false
    | some d => if l.status = "paid" then false else decide (d < now)
  else false

/-- Row of the users table. Modelled from the spec: the account ledger holds a
balance (coins) and a historical peak balance (max_coins) per account. -/
structure UserRec where
  user_id : String
  coins : Int
  max_coins : Int
deriving DecidableEq

/-- Whole-system state: the users table, the loans table and the AUTOINCREMENT
counter that assigns fresh loan_ids. -/
structure St where
  users : List UserRec
  loans : List Loan
  nextId : Nat
deriving DecidableEq

/-- Row lookup in a list of user rows by primary key. -/
def findUser (us : List UserRec) (uid : String) : Option UserRec :=
  us.find? (fun u => decide (u.user_id = uid))

/-- Row lookup in the users table by primary key. -/
def getUser (st : St) (uid : String) : Option UserRec :=
  findUser st.users uid

/-- Balance of an account (0 when the row is absent). -/
def coinsOf (st : St) (uid : String) : Int :=
  (getUser st uid).elim 0 (fun u => u.coins)

/-- Historical peak balance of an account (0 when the row is absent). -/
def maxCoinsOf (st : St) (uid : String) : Int :=
  (getUser st uid).elim 0 (fun u => u.max_coins)

/-- Row lookup in the loans table by primary key
(sqlite_loan_repo.get_loan_by_id). -/
def getLoanById (ls : List Loan) (id : Nat) : Option Loan :=
  ls.find? (fun l => decide (l.loan_id = id))

/-- An UPDATE ... WHERE user_id = uid statement on the users table. -/
def mapUser (us : List UserRec) (uid : String) (f : UserRec → UserRec) : List UserRec :=
  us.map (fun u => if u.user_id = uid then f u else u)

/-- UPDATE users SET coins = MAX(0, coins - amt) WHERE user_id = uid. -/
def sqlDebitClamp (us : List UserRec) (uid : String) (amt : Int) : List UserRec :=
  mapUser us uid (fun u => { u with coins := max 0 (u.coins - amt) })

/-- UPDATE users SET coins = coins + amt WHERE user_id = uid. -/
def sqlCredit (us : List UserRec) (uid : String) (amt : Int) : List UserRec :=
  mapUser us uid (fun u => { u with coins := u.coins + amt })

/-- UPDATE users SET max_coins = coins WHERE user_id = uid AND coins > max_coins. -/
def sqlRaiseMax (us : List UserRec) (uid : String) : List UserRec :=
  mapUser us uid (fun u => if u.max_coins < u.coins then { u with max_coins := u.coins } else u)

/-- UPDATE users SET coins = c WHERE user_id = uid. -/
def sqlSetCoins (us : List UserRec) (uid : String) (c : Int) : List UserRec :=
  mapUser us uid (fun u => { u with coins := c })

/-- LoanService._update_coins (loan_service.py:32): read the user, add the
delta to coins, clamp at zero, persist. Fails when the row is absent. The user
repository's update method is not in the provided sources; modelled from the
spec: it persists the in-memory record (so max_coins is written back
unchanged). -/
def update_coins (st : St) (uid : String) (amount : Int) : Bool × St :=
  match getUser st uid with
  | none => (false, st)
  | some _ =>
      let us := mapUser st.users uid (fun u => { u with coins := max 0 (u.coins + amount) })
      (true, { st with users := us })

/-- The UPDATE issued by sqlite_loan_repo.update_loan_repayment and by the
inline loan updates of the service: overwrite repaid_amount and status of the
row with the given loan_id. -/
def setLoan (ls : List Loan) (id : Nat) (r : Int) (s : String) : List Loan :=
  ls.map (fun l => if l.loan_id = id then { l with repaid_amount := r, status := s } else l)

/-- Predicate of the WHERE clause of get_active_loans_between_users
(sqlite_loan_repo.py:98): the pair matches and status = 'active' only. -/
def betweenActive (lender borrower : String) (l : Loan) : Bool :=
  decide (l.lender_id = lender) && decide (l.borrower_id = borrower) &&
    decide (l.status = "active")

/-- Predicate of the candidate query of repay_loan (loan_service.py:309):
the pair matches and status is 'active' or 'overdue'. -/
def repayPred (borrower lender : String) (l : Loan) : Bool :=
  decide (l.borrower_id = borrower) && decide (l.lender_id = lender) &&
    (decide (l.status = "active") || decide (l.status = "overdue"))

/-- Predicate of the candidate query of repay_all_loans (loan_service.py:215):
owed by the borrower, status 'active' or 'overdue', any lender. -/
def repayAllPred (borrower : String) (l : Loan) : Bool :=
  decide (l.borrower_id = borrower) &&
    (decide (l.status = "active") || decide (l.status = "overdue"))

/-- Ascending borrowed_at comparison (ORDER BY borrowed_at ASC, and the
Python sort key of force_collect, loan_service.py:427). -/
def ascBorrow : Loan → Loan → Prop :=
  fun a b => a.borrowed_at ≤ b.borrowed_at

/-- Descending borrowed_at comparison (ORDER BY borrowed_at DESC of
get_active_loans_between_users). -/
def descBorrow : Loan → Loan → Prop :=
  fun a b => b.borrowed_at ≤ a.borrowed_at

instance : DecidableRel ascBorrow :=
  fun a b => inferInstanceAs (Decidable (a.borrowed_at ≤ b.borrowed_at))

instance : DecidableRel descBorrow :=
  fun a b => inferInstanceAs (Decidable (b.borrowed_at ≤ a.borrowed_at))

instance : IsTotal Loan ascBorrow :=
  ⟨fun a b => Nat.le_total a.borrowed_at b.borrowed_at⟩

instance : IsTrans Loan ascBorrow :=
  ⟨fun _ _ _ h1 h2 => Nat.le_trans h1 h2⟩

instance : IsTotal Loan descBorrow :=
  ⟨fun a b => Nat.le_total b.borrowed_at a.borrowed_at⟩

instance : IsTrans Loan descBorrow :=
  ⟨fun _ _ _ h1 h2 => Nat.le_trans h2 h1⟩

/-- First component of the repay_all_loans sort key
(loan_service.py:230): 0 for system loans, 1 for peer loans. -/
def sysRank (l : Loan) : Nat :=
  if l.lender_id = "SYSTEM" then 0 else 1

/-- The three-key comparator of repay_all_loans (loan_service.py:230):
system loans first, then interest_rate descending, then borrowed_at
ascending. This is the (reflexive) total preorder induced by the Python sort
key (0/1 system flag, -interest_rate, borrowed_at). -/
def repayAllLe (a b : Loan) : Prop :=
  sysRank a < sysRank b ∨
    (sysRank a = sysRank b ∧
      (b.interest_rate < a.interest_rate ∨
        (a.interest_rate = b.interest_rate ∧ a.borrowed_at ≤ b.borrowed_at)))

instance : DecidableRel repayAllLe := fun a b =>
  inferInstanceAs (Decidable (sysRank a < sysRank b ∨
    (sysRank a = sysRank b ∧ (b.interest_rate < a.interest_rate ∨
      (a.interest_rate = b.interest_rate ∧ a.borrowed_at ≤ b.borrowed_at)))))

instance : IsTotal Loan repayAllLe := by
  constructor
  intro a b
  unfold repayAllLe
  rcases Nat.lt_trichotomy (sysRank a) (sysRank b) with h | h | h
  · exact Or.inl (Or.inl h)
  · rcases lt_trichotomy a.interest_rate b.interest_rate with h2 | h2 | h2
    · exact Or.inr (Or.inr ⟨h.symm, Or.inl h2⟩)
    · rcases Nat.le_total a.borrowed_at b.borrowed_at with h3 | h3
      · exact Or.inl (Or.inr ⟨h, Or.inr ⟨h2, h3⟩⟩)
      · exact Or.inr (Or.inr ⟨h.symm, Or.inr ⟨h2.symm, h3⟩⟩)
    · exact Or.inl (Or.inr ⟨h, Or.inl h2⟩)
  · exact Or.inr (Or.inl h)

instance : IsTrans Loan repayAllLe := by
  constructor
  intro a b c hab hbc
  rcases hab with h1 | ⟨h1, h1r⟩
  · rcases hbc with h2 | ⟨h2, _⟩
    · exact Or.inl (Nat.lt_trans h1 h2)
    · exact Or.inl (h2 ▸ h1)
  · rcases hbc with h2 | ⟨h2, h2r⟩
    · exact Or.inl (h1 ▸ h2)
    · refine Or.inr ⟨h1.trans h2, ?_⟩
      rcases h1r with hr1 | ⟨hr1, hb1⟩
      · rcases h2r with hr2 | ⟨hr2, _⟩
        · exact Or.inl (hr2.trans hr1)
        · exact Or.inl (hr2 ▸ hr1)
      · rcases h2r with hr2 | ⟨hr2, hb2⟩
        · exact Or.inl (hr1 ▸ hr2)
        · exact Or.inr ⟨hr1.trans hr2, hb1.trans hb2⟩

/-- Candidate list of repay_loan: WHERE borrower/lender match AND status IN
('active','overdue') ORDER BY borrowed_at ASC (loan_service.py:309-318).
The SQL sort is modelled by a stable sort of the stored rows. -/
def repayCandidates (st : St) (borrower lender : String) : List Loan :=
  List.insertionSort ascBorrow (st.loans.filter (repayPred borrower lender))

/-- Candidate list of repay_all_loans after the Python sort
(loan_service.py:215-234): all active/overdue loans of the borrower, sorted by
the three-key comparator (Python's sort is stable; so is insertionSort). -/
def repayAllCandidates (st : St) (borrower : String) : List Loan :=
  List.insertionSort repayAllLe (st.loans.filter (repayAllPred borrower))

/-- sqlite_loan_repo.get_active_loans_between_users (sqlite_loan_repo.py:98):
status = 'active' rows of the pair, ORDER BY borrowed_at DESC. -/
def get_active_loans_between_users (st : St) (lender borrower : String) : List Loan :=
  List.insertionSort descBorrow (st.loans.filter (betweenActive lender borrower))

/-- The list force_collect walks: the repository result re-sorted ascending by
borrowed_at (loan_service.py:427, active_loans.sort(key=lambda x: x.borrowed_at)). -/
def collectSorted (st : St) (lender borrower : String) : List Loan :=
  List.insertionSort ascBorrow (get_active_loans_between_users st lender borrower)

/-- sqlite_loan_repo.get_active_system_loan (sqlite_loan_repo.py:187):
first row (LIMIT 1) of the active system loans of the borrower, ORDER BY
borrowed_at DESC. -/
def getActiveSystemLoan (st : St) (borrower : String) : Option Loan :=
  (List.insertionSort descBorrow (st.loans.filter (betweenActive "SYSTEM" borrower))).head?

/-- sqlite_loan_repo.has_overdue_system_loan (sqlite_loan_repo.py:200):
COUNT(*) > 0 over system loans of the borrower with status IN
('active','overdue') and due_date < now. -/
def hasOverdueSystemLoan (st : St) (borrower : String) (now : Nat) : Bool :=
  st.loans.any (fun l =>
    decide (l.lender_id = "SYSTEM") && decide (l.borrower_id = borrower) &&
      (decide (l.status = "active") || decide (l.status = "overdue")) &&
      (match l.due_date with
       | some d => decide (d < now)
       | none => false))

/-- The shared allocation walk of repay_loan, repay_all_loans and
force_collect (loan_service.py:331, 239, 434): traverse the ordered candidate
list; stop when the running funds counter is exhausted; otherwise allocate
min(remaining funds, loan.remaining_amount()) to the loan and decrement the
counter. Returns the (loan, allocation) pairs in walk order. -/
def allocate (funds : Int) : List Loan → List (Loan × Int)
  | [] => []
  | loan :: rest =>
      if funds ≤ 0 then []
      else
        let x := min funds loan.remaining_amount
        (loan, x) :: allocate (funds - x) rest

/-- Sum of the individual allocations (the running total_repaid /
total_collected counter). -/
def allocTotal (ps : List (Loan × Int)) : Int :=
  (ps.map (fun p => p.2)).sum

/-- Portion of an allocation list that goes to the loans of one lender. -/
def appliedTo (ps : List (Loan × Int)) (uid : String) : Int :=
  ((ps.filter (fun p => decide (p.1.lender_id = uid))).map (fun p => p.2)).sum

/-- Per-loan effect of one allocation step, as an optional
(new repaid_amount, new status) pair; none means the step issues no UPDATE. -/
def applyUpdates (sf : Loan → Int → Option (Int × String))
    (ls : List Loan) (ps : List (Loan × Int)) : List Loan :=
  ps.foldl (fun acc q =>
    match sf q.1 q.2 with
    | none => acc
    | some rs => setLoan acc q.1.loan_id rs.1 rs.2) ls

/-- Loan update rule of repay_loan and force_collect (loan_service.py:339-340,
445-446): always issue the UPDATE; the new status is 'paid' when the new
repaid amount reaches due_amount and otherwise the literal 'active'. -/
def settleRule (l : Loan) (x : Int) : Option (Int × String) :=
  some (l.repaid_amount + x,
    if l.due_amount ≤ l.repaid_amount + x then "paid" else "active")

/-- Loan update rule of repay_all_loans (loan_service.py:246-250): skip the
loan when the allocation is not positive; otherwise the new status is 'paid'
when settled and the loan's previous status otherwise. -/
def settleKeepRule (l : Loan) (x : Int) : Option (Int × String) :=
  if x ≤ 0 then none
  else some (l.repaid_amount + x,
    if l.due_amount ≤ l.repaid_amount + x then "paid" else l.status)

/-- LoanService.repay_loan (loan_service.py:282): validate the amount, check
the borrower's balance, walk the active/overdue loans owed to the one lender
oldest-first, update each loan, then debit the borrower by the total and (for
a peer lender) credit the lender and raise the lender's peak-balance marker.
An empty candidate list returns failure. -/
def repay_loan (st : St) (borrower lender : String) (amount : Int) : Bool × St :=
  if amount ≤ 0 then (false, st)
  else
    match getUser st borrower with
    | none => (false, st)
    | some bu =>
        if bu.coins < amount then (false, st)
        else
          let cands := repayCandidates st borrower lender
          if cands.isEmpty then (false, st)
          else
            let ps := allocate amount cands
            let total := allocTotal ps
            let loans1 := applyUpdates settleRule st.loans ps
            let us1 := sqlDebitClamp st.users borrower total
            let us2 := if lender = "SYSTEM" then us1
                       else sqlRaiseMax (sqlCredit us1 lender total) lender
            (true, { st with loans := loans1, users := us2 })

/-- One iteration of the repay_all_loans loop (loan_service.py:239-266) as a
state transformer: update the loan (unless the allocation is not positive) and,
for a peer loan, credit the lender and raise the lender's peak marker. -/
def repayAllStep (st : St) (q : Loan × Int) : St :=
  if q.2 ≤ 0 then st
  else
    let s1 := if q.1.due_amount ≤ q.1.repaid_amount + q.2 then "paid" else q.1.status
    let ls1 := setLoan st.loans q.1.loan_id (q.1.repaid_amount + q.2) s1
    let st1 := { st with loans := ls1 }
    if q.1.lender_id = "SYSTEM" then st1
    else { st1 with users := sqlRaiseMax (sqlCredit st1.users q.1.lender_id q.2) q.1.lender_id }

/-- LoanService.repay_all_loans (loan_service.py:196): fail when the borrower
is absent or broke; succeed immediately when no active/overdue loans exist;
otherwise sort by the three-key comparator, walk the list allocating
min(remaining balance, remaining debt), credit each peer lender inside the
loop, and finally overwrite the borrower's coins with the remaining balance. -/
def repay_all_loans (st : St) (borrower : String) : Bool × St :=
  match getUser st borrower with
  | none => (false, st)
  | some bu =>
      if bu.coins ≤ 0 then (false, st)
      else
        if (st.loans.filter (repayAllPred borrower)).isEmpty then (true, st)
        else
          let ps := allocate bu.coins (repayAllCandidates st borrower)
          let total := allocTotal ps
          let st1 := ps.foldl repayAllStep st
          (true, { st1 with users := sqlSetCoins st1.users borrower (bu.coins - total) })

/-- LoanService.force_collect (loan_service.py:387): fetch the active loans of
the pair, bound the requested amount by the total debt and then by the
borrower's balance, walk the loans oldest-first updating each one (each UPDATE
commits on its own), then debit the borrower and credit the lender through
_update_coins; when the credit fails the debit is compensated and failure is
reported with the loan updates already persisted. -/
def force_collect (st : St) (lender borrower : String) (amount : Option Int) : Bool × St :=
  let cands := get_active_loans_between_users st lender borrower
  if cands.isEmpty then (false, st)
  else
    let totalDebt := (cands.map Loan.remaining_amount).sum
    let collectAmount : Option Int :=
      match amount with
      | none => some totalDebt
      | some a => if a ≤ 0 then none else some (min a totalDebt)
    match collectAmount with
    | none => (false, st)
    | some cA =>
        match getUser st borrower with
        | none => (false, st)
        | some bu =>
            let actual := min cA bu.coins
            if actual ≤ 0 then (false, st)
            else
              let ps := allocate actual (collectSorted st lender borrower)
              let total := allocTotal ps
              let st1 := { st with loans := applyUpdates settleRule st.loans ps }
              match update_coins st1 borrower (-total) with
              | (false, st2) => (false, st2)
              | (true, st2) =>
                  match update_coins st2 lender total with
                  | (false, st3) => (false, (update_coins st3 borrower total).2)
                  | (true, st3) => (true, st3)

/-- Service configuration (LoanService.__init__): the flat default interest
rate, the system-loan ratio applied to the historical peak balance, and the
system-loan period. The two rates are the rational values of the configured
Python floats. -/
structure Cfg where
  default_interest_rate : ℚ
  system_loan_ratio : ℚ
  system_loan_days : Nat
deriving DecidableEq

/-- Rational addition written through mkRat. The field operations of ℚ are
irreducible in this library, so the executable float model below uses these
kernel-computable forms; each is proved equal to the corresponding field
operation (theorems qAdd_eq etc. below). -/
def qAdd (a b : ℚ) : ℚ :=
  mkRat (a.num * (b.den : ℤ) + b.num * (a.den : ℤ)) (a.den * b.den)

/-- Rational subtraction written through mkRat. -/
def qSub (a b : ℚ) : ℚ :=
  mkRat (a.num * (b.den : ℤ) - b.num * (a.den : ℤ)) (a.den * b.den)

/-- Rational multiplication written through mkRat. -/
def qMul (a b : ℚ) : ℚ :=
  mkRat (a.num * b.num) (a.den * b.den)

/-- Doubling written through mkRat. -/
def qDouble (a : ℚ) : ℚ :=
  mkRat (2 * a.num) a.den

/-- Halving written through mkRat. -/
def qHalf (a : ℚ) : ℚ :=
  mkRat a.num (a.den * 2)

/-- Negation written through mkRat. -/
def qNeg (a : ℚ) : ℚ :=
  mkRat (-a.num) a.den

/-- Absolute value written through mkRat. -/
def qAbs (a : ℚ) : ℚ :=
  mkRat |a.num| a.den

/-- Integer embedded as a rational, written through mkRat. -/
def qOfInt (n : ℤ) : ℚ :=
  mkRat n 1

/-- The rational 2 to the power 52. -/
def q2p52 : ℚ :=
  mkRat 4503599627370496 1

/-- The rational 2 to the power 53. -/
def q2p53 : ℚ :=
  mkRat 9007199254740992 1

/-- The rational one half. -/
def qHalfOne : ℚ :=
  mkRat 1 2

/-- Fuel bound for the binade search of round53; covers every IEEE-754
binary64 exponent with a wide margin. -/
def normFuel : Nat := 4400

/-- Repeatedly double t (tracking the scaling exponent k) until it reaches
2^52; fuel-bounded structural loop. -/
def scaleUp : Nat → ℚ → ℤ → ℚ × ℤ
  | 0, t, k => (t, k)
  | n + 1, t, k => if t < q2p52 then scaleUp n (qDouble t) (k + 1) else (t, k)

/-- Repeatedly halve t (tracking the scaling exponent k) until it drops below
2^53; fuel-bounded structural loop. -/
def scaleDown : Nat → ℚ → ℤ → ℚ × ℤ
  | 0, t, k => (t, k)
  | n + 1, t, k => if q2p53 ≤ t then scaleDown n (qHalf t) (k - 1) else (t, k)

/-- Floor of a rational as an integer (exact mathematics, no rounding). -/
def ratFloor (q : ℚ) : ℤ :=
  Int.fdiv q.num (q.den : ℤ)

/-- Nearest integer with ties to even. -/
def roundHalfEven (t : ℚ) : ℤ :=
  let f := ratFloor t
  let r := qSub t (qOfInt f)
  if r < qHalfOne then f
  else if qHalfOne < r then f + 1
  else if f % 2 = 0 then f else f + 1

/-- Power of two with an integer exponent, as a rational. -/
def qpow2 (k : ℤ) : ℚ :=
  if 0 ≤ k then mkRat ((2 ^ k.toNat : ℕ) : ℤ) 1 else mkRat 1 (2 ^ (-k).toNat)

/-- Round a rational to the nearest IEEE-754 binary64 value (53-bit
significand, round to nearest, ties to even). Models the result of CPython
float arithmetic in the normal range (exponent overflow and subnormals are
outside the magnitudes exercised here). The significand is located by scaling
the absolute value into [2^52, 2^53) and rounding there. -/
def round53 (q : ℚ) : ℚ :=
  if q = 0 then 0
  else
    let p1 := scaleUp normFuel (qAbs q) 0
    let p2 := scaleDown normFuel p1.1 p1.2
    let m := roundHalfEven p2.1
    let r := qMul (qOfInt m) (qpow2 (-p2.2))
    if q < 0 then qNeg r else r

/-- Conversion of a Python int to float (CPython rounds to the nearest
double). -/
def pyOfInt (n : ℤ) : ℚ :=
  round53 (qOfInt n)

/-- Python float addition: exact sum, rounded to the nearest double. -/
def pyAdd (a b : ℚ) : ℚ :=
  round53 (qAdd a b)

/-- Python float multiplication: exact product, rounded to the nearest
double. -/
def pyMul (a b : ℚ) : ℚ :=
  round53 (qMul a b)

/-- Python int() applied to a float: truncation toward zero. -/
def pyTrunc (q : ℚ) : ℤ :=
  if 0 ≤ q then ratFloor q else -ratFloor (-q)

/-- The due-amount computation int(principal * (1 + interest_rate)) of
create_loan (loan_service.py:71) and borrow_from_system (loan_service.py:625),
under CPython float semantics: the int is converted to float, 1 + rate and the
product are each rounded doubles, and int() truncates. -/
def pyDue (p : ℤ) (r : ℚ) : ℤ :=
  pyTrunc (pyMul (pyOfInt p) (pyAdd 1 r))

/-- The borrowing cap int(max_coins * system_loan_ratio) of borrow_from_system
(loan_service.py:610) under CPython float semantics. -/
def pyCap (maxCoins : ℤ) (ratio : ℚ) : ℤ :=
  pyTrunc (pyMul (pyOfInt maxCoins) ratio)

/-- LoanService.create_loan (loan_service.py:47). Peer branch: record a
pending loan, no funds move. System branch (lender_id = SYSTEM): check the
lender row's balance and the borrower row, debit the lender (clamped), credit
the borrower, raise the borrower's peak marker, insert the active loan. The
caller resolves the default interest rate, so the rate is a plain argument. -/
def create_loan (st : St) (lender borrower : String) (principal : Int) (rate : ℚ)
    (now : Nat) : Bool × St :=
  if lender = borrower then (false, st)
  else if principal ≤ 0 then (false, st)
  else
    let newLoan : Loan :=
      { loan_id := st.nextId, lender_id := lender, borrower_id := borrower,
        principal := principal, interest_rate := rate, borrowed_at := now,
        due_amount := pyDue principal rate, repaid_amount := 0,
        status := if lender ≠ "SYSTEM" then "pending" else "active",
        due_date := none }
    if lender ≠ "SYSTEM" then
      (true, { st with loans := st.loans ++ [newLoan], nextId := st.nextId + 1 })
    else
      match getUser st lender with
      | none => (false, st)
      | some lu =>
          if lu.coins < principal then (false, st)
          else
            match getUser st borrower with
            | none => (false, st)
            | some _ =>
                let us := sqlRaiseMax
                  (sqlCredit (sqlDebitClamp st.users lender principal) borrower principal)
                  borrower
                (true, { users := us, loans := st.loans ++ [newLoan],
                         nextId := st.nextId + 1 })

/-- LoanService.confirm_loan (loan_service.py:148): only the designated
borrower can confirm, only from 'pending'; the lender must still hold the
principal; then the principal moves lender to borrower, the borrower's peak
marker is raised, and the loan becomes active with borrowed_at reset to the
confirmation instant. -/
def confirm_loan (st : St) (loan_id : Nat) (uid : String) (now : Nat) : Bool × St :=
  match getLoanById st.loans loan_id with
  | none => (false, st)
  | some loan =>
      if loan.borrower_id ≠ uid then (false, st)
      else if loan.status ≠ "pending" then (false, st)
      else
        match getUser st loan.lender_id with
        | none => (false, st)
        | some lu =>
            if lu.coins < loan.principal then (false, st)
            else
              let us := sqlRaiseMax
                (sqlCredit (sqlDebitClamp st.users loan.lender_id loan.principal)
                  loan.borrower_id loan.principal)
                loan.borrower_id
              let loans1 := st.loans.map (fun l =>
                if l.loan_id = loan_id then { l with status := "active", borrowed_at := now }
                else l)
              (true, { st with users := us, loans := loans1 })

/-- LoanService.borrow_from_system (loan_service.py:586): reject when the
borrower is absent, already has an active system loan, or has an overdue
system loan; compute the cap from the historical peak balance; default the
amount to the cap; validate the requested amount; credit the borrower through
_update_coins and insert the active system loan with a due date. -/
def borrow_from_system (cfg : Cfg) (st : St) (borrower : String) (amount : Option Int)
    (now : Nat) : Bool × St :=
  match getUser st borrower with
  | none => (false, st)
  | some bu =>
      if (getActiveSystemLoan st borrower).isSome then (false, st)
      else if hasOverdueSystemLoan st borrower now then (false, st)
      else
        let cap := pyCap bu.max_coins cfg.system_loan_ratio
        if cap ≤ 0 then (false, st)
        else
          let amtOk : Option Int :=
            match amount with
            | none => some cap
            | some a => if a ≤ 0 then none else if cap < a then none else some a
          match amtOk with
          | none => (false, st)
          | some amt =>
              let newLoan : Loan :=
                { loan_id := st.nextId, lender_id := "SYSTEM", borrower_id := borrower,
                  principal := amt, interest_rate := cfg.default_interest_rate,
                  borrowed_at := now, due_amount := pyDue amt cfg.default_interest_rate,
                  repaid_amount := 0, status := "active",
                  due_date := some (now + cfg.system_loan_days) }
              let upd := update_coins st borrower amt
              if upd.1 then
                (true, { upd.2 with loans := upd.2.loans ++ [newLoan], nextId := st.nextId + 1 })
              else (false, st)

/-- The lazy overdue transition performed by the read paths
(get_all_loans_list loan_service.py:539, check_user_overdue_status
loan_service.py:683, get_total_debt loan_service.py:708): when a fetched loan
is_overdue and its stored status is 'active', persist status 'overdue' with
the unchanged repaid_amount. -/
def mark_overdue (st : St) (loan_id : Nat) (now : Nat) : St :=
  match getLoanById st.loans loan_id with
  | none => st
  | some loan =>
      if loan.is_overdue now && decide (loan.status = "active") then
        { st with loans := setLoan st.loans loan_id loan.repaid_amount "overdue" }
      else st

/-- Candidate loan set for collection as the specification words it
(spec 4.3 step 1 together with 4.4): all loans of the pair whose status is
'active' or 'overdue'. Written from the spec for comparison with the
implementation's query. -/
def specCollectCandidates (st : St) (lender borrower : String) : List Loan :=
  st.loans.filter (fun l =>
    decide (l.lender_id = lender) && decide (l.borrower_id = borrower) &&
      (decide (l.status = "active") || decide (l.status = "overdue")))

/-- One step of the system: any service operation invoked through the command
layer (src/handlers/loan_handlers.py), or the clock advancing. The lender of
create_loan is the message sender (loan_handlers.py:64), never the SYSTEM
sentinel, hence the side condition on the create step. A step records the
post-state of the operation whether it reports success or failure (failure
states matter: force_collect can fail after persisting loan updates). -/
inductive Step (cfg : Cfg) : St × Nat → St × Nat → Prop
  | create (st : St) (now : Nat) (lender borrower : String) (p : Int) (r : ℚ)
      (h : lender ≠ "SYSTEM") :
      Step cfg (st, now) ((create_loan st lender borrower p r now).2, now)
  | confirm (st : St) (now : Nat) (id : Nat) (uid : String) :
      Step cfg (st, now) ((confirm_loan st id uid now).2, now)
  | repay (st : St) (now : Nat) (b l : String) (amt : Int) :
      Step cfg (st, now) ((repay_loan st b l amt).2, now)
  | repayAll (st : St) (now : Nat) (b : String) :
      Step cfg (st, now) ((repay_all_loans st b).2, now)
  | collect (st : St) (now : Nat) (l b : String) (amt : Option Int) :
      Step cfg (st, now) ((force_collect st l b amt).2, now)
  | borrow (st : St) (now : Nat) (b : String) (amt : Option Int) :
      Step cfg (st, now) ((borrow_from_system cfg st b amt now).2, now)
  | overdue (st : St) (now : Nat) (id : Nat) :
      Step cfg (st, now) (mark_overdue st id now, now)
  | tick (st : St) (now now2 : Nat) (h : now ≤ now2) :
      Step cfg (st, now) (st, now2)

/-- Initial states: the loans table starts empty (migration
041_add_loan_system.py creates it fresh); accounts and clock are arbitrary. -/
def LoanInit (p : St × Nat) : Prop :=
  p.1.loans = []

/-- Reachability through any number of steps. -/
def ReachableLoan (cfg : Cfg) (p q : St × Nat) : Prop :=
  Relation.ReflTransGen (Step cfg) p q

/-- Effect of one allocation entry on one loan row: overwrite repaid_amount
and status when the row is the one keyed by the entry and the rule issues an
UPDATE. -/
def applyOne (sf : Loan → Int → Option (Int × String)) (q : Loan × Int) (l : Loan) : Loan :=
  match sf q.1 q.2 with
  | none => l
  | some rs => if l.loan_id = q.1.loan_id then { l with repaid_amount := rs.1, status := rs.2 } else l

/-- Composite per-row effect of a whole allocation list (applyUpdates is the
map of this function over the table, proved below). -/
def applyMany (sf : Loan → Int → Option (Int × String)) (ps : List (Loan × Int)) (l : Loan) : Loan :=
  ps.foldl (fun acc q => applyOne sf q acc) l

/-- An outstanding system loan of borrower b: lender is the SYSTEM sentinel
and the status is active or overdue. -/
def sysOutstanding (b : String) (l : Loan) : Bool :=
  l.is_system_loan && decide (l.borrower_id = b) &&
    (decide (l.status = "active") || decide (l.status = "overdue"))

/-- Inductive invariant of the loan table: loan_ids are unique and below the
AUTOINCREMENT counter, pending loans are never system loans, overdue loans are
system loans whose due date has passed, and each borrower has at most one
outstanding system loan. -/
def InvLoan (p : St × Nat) : Prop :=
  (p.1.loans.map (fun l => l.loan_id)).Nodup ∧
  (∀ l ∈ p.1.loans, l.loan_id < p.1.nextId) ∧
  (∀ l ∈ p.1.loans, l.status = "pending" → l.lender_id ≠ "SYSTEM") ∧
  (∀ l ∈ p.1.loans, l.status = "overdue" →
    l.lender_id = "SYSTEM" ∧ ∃ d, l.due_date = some d ∧ d < p.2) ∧
  (∀ b : String, ∀ l1 ∈ p.1.loans, ∀ l2 ∈ p.1.loans,
    sysOutstanding b l1 → sysOutstanding b l2 → l1 = l2)

/-- Example account rows and states used by the concrete theorems below. -/
def exAlice : UserRec :=
  { user_id := "alice", coins := 500, max_coins := 600 }

/-- Example peer account. -/
def exBob : UserRec :=
  { user_id := "bob", coins := 10, max_coins := 10 }

/-- An overdue system loan of alice (due 300, nothing repaid). -/
def exSysOverdue : Loan :=
  { loan_id := 1, lender_id := "SYSTEM", borrower_id := "alice", principal := 280,
    interest_rate := mkRat 1 20, borrowed_at := 1, due_amount := 300, repaid_amount := 0,
    status := "overdue", due_date := some 5 }

/-- An active peer loan from bob to alice (due 400, nothing repaid). -/
def exPeerActive : Loan :=
  { loan_id := 2, lender_id := "bob", borrower_id := "alice", principal := 370,
    interest_rate := mkRat 2 25, borrowed_at := 2, due_amount := 400, repaid_amount := 0,
    status := "active", due_date := none }

/-- An active loan whose lender has no account row. -/
def exGhostLoan : Loan :=
  { loan_id := 3, lender_id := "ghost", borrower_id := "alice", principal := 370,
    interest_rate := mkRat 2 25, borrowed_at := 2, due_amount := 400, repaid_amount := 0,
    status := "active", due_date := none }

/-- State with only the overdue system loan. -/
def exStOverdue : St :=
  { users := [exAlice], loans := [exSysOverdue], nextId := 2 }

/-- State with accounts but no loans. -/
def exStPlain : St :=
  { users := [exAlice, exBob], loans := [], nextId := 1 }

/-- State with one active peer loan from bob to alice. -/
def exStPeer : St :=
  { users := [exAlice, exBob], loans := [exPeerActive], nextId := 3 }

/-- State whose only loan is owed to an absent lender account. -/
def exStGhost : St :=
  { users := [exAlice], loans := [exGhostLoan], nextId := 4 }

/-- Loan A of the fixed ordering example: system loan, 10 percent, day 1. -/
def exLoanA : Loan :=
  { loan_id := 11, lender_id := "SYSTEM", borrower_id := "alice", principal := 100,
    interest_rate := mkRat 1 10, borrowed_at := 1, due_amount := 110, repaid_amount := 0,
    status := "active", due_date := some 8 }

/-- Loan B of the fixed ordering example: peer loan, 8 percent, day 2. -/
def exLoanB : Loan :=
  { loan_id := 12, lender_id := "bob", borrower_id := "alice", principal := 100,
    interest_rate := mkRat 2 25, borrowed_at := 2, due_amount := 108, repaid_amount := 0,
    status := "active", due_date := none }

/-- Loan C of the fixed ordering example: peer loan, 8 percent, day 0. -/
def exLoanC : Loan :=
  { loan_id := 13, lender_id := "bob", borrower_id := "alice", principal := 100,
    interest_rate := mkRat 2 25, borrowed_at := 0, due_amount := 108, repaid_amount := 0,
    status := "active", due_date := none }

/-- State holding the three ordering-example loans in stored order A, B, C. -/
def exStABC : St :=
  { users := [exAlice, exBob], loans := [exLoanA, exLoanB, exLoanC], nextId := 14 }

/-- Example service configuration: the defaults of LoanService.__init__
(0.05 and 0.10 as the rational values of the Python doubles, 7 days). -/
def exCfg : Cfg :=
  { default_interest_rate := mkRat 3602879701896397 72057594037927936,
    system_loan_ratio := mkRat 3602879701896397 36028797018963968,
    system_loan_days := 7 }

/-- Result row of crediting an account with p and raising its peak-balance
marker when exceeded. -/
def creditRaise (bu : UserRec) (p : Int) : UserRec :=
  { bu with coins := bu.coins + p, max_coins := max bu.max_coins (bu.coins + p) }

/-- A pending peer loan from bob to alice awaiting confirmation. -/
def exPendingLoan : Loan :=
  { loan_id := 5, lender_id := "bob", borrower_id := "alice", principal := 7,
    interest_rate := mkRat 1 20, borrowed_at := 0, due_amount := 7, repaid_amount := 0,
    status := "pending", due_date := none }

/-- State with the pending peer loan and both accounts. -/
def exStPending : St :=
  { users := [exAlice, exBob], loans := [exPendingLoan], nextId := 6 }

/-- A SYSTEM account row (needed by create_loan's direct-transfer branch,
which debits the lender row). -/
def exSystemUser : UserRec :=
  { user_id := "SYSTEM", coins := 1000, max_coins := 1000 }

/-- State containing a SYSTEM account row and alice. -/
def exStWithSystem : St :=
  { users := [exAlice, exSystemUser], loans := [], nextId := 1 }

/-- The allocation list force_collect computes on its success path
(loan_service.py:427-434): the requested amount bounded by the pair's total
outstanding debt and then by the borrower's balance, walked over the active
loans of the pair oldest-first. Named here so the conservation statement can
refer to the amount the call applies to the loans. -/
def collectPlan (st : St) (lender borrower : String) (oamt : Option Int) :
    List (Loan × Int) :=
  let cands := get_active_loans_between_users st lender borrower
  let totalDebt := (cands.map Loan.remaining_amount).sum
  let cA := match oamt with
            | none => totalDebt
            | some a => min a totalDebt
  allocate (min cA (coinsOf st borrower)) (collectSorted st lender borrower)

/-! Bridge lemmas: the kernel-computable mkRat forms used by the float model
agree with the field operations of ℚ. -/

theorem qAdd_eq (a b : ℚ) : qAdd a b = a + b :=
  (Rat.add_def' a b).symm

theorem qSub_eq (a b : ℚ) : qSub a b = a - b :=
  (Rat.sub_def' a b).symm

theorem qMul_eq (a b : ℚ) : qMul a b = a * b := by
  unfold qMul
  rw [Rat.mul_def, Rat.normalize_eq_mkRat]

theorem qOfInt_eq (n : ℤ) : qOfInt n = (n : ℚ) := by
  unfold qOfInt
  exact Rat.mkRat_one n

theorem qDouble_eq (a : ℚ) : qDouble a = 2 * a := by
  unfold qDouble
  rw [Rat.mkRat_eq_div]
  push_cast
  rw [mul_div_assoc, Rat.num_div_den]

theorem qHalf_eq (a : ℚ) : qHalf a = a / 2 := by
  unfold qHalf
  rw [Rat.mkRat_eq_div]
  push_cast
  rw [← div_div, Rat.num_div_den]

theorem qNeg_eq (a : ℚ) : qNeg a = -a := by
  unfold qNeg
  rw [Rat.mkRat_eq_div]
  push_cast
  rw [neg_div, Rat.num_div_den]

theorem qAbs_eq (a : ℚ) : qAbs a = |a| := by
  unfold qAbs
  rw [Rat.mkRat_eq_div]
  push_cast
  rw [show ((a.den : ℚ)) = |(a.den : ℚ)| from (abs_of_nonneg (by positivity)).symm,
    ← abs_div, Rat.num_div_den]

theorem q2p52_eq : q2p52 = 2 ^ 52 := by
  unfold q2p52
  rw [Rat.mkRat_eq_div]
  norm_num

theorem q2p53_eq : q2p53 = 2 ^ 53 := by
  unfold q2p53
  rw [Rat.mkRat_eq_div]
  norm_num

theorem qHalfOne_eq : qHalfOne = 1 / 2 := by
  unfold qHalfOne
  rw [Rat.mkRat_eq_div]
  norm_num

/-! Helper lemmas about the user table updates. -/

theorem findUser_mapUser (us : List UserRec) (uid v : String) (f : UserRec → UserRec)
    (hf : ∀ u, (f u).user_id = u.user_id) :
    findUser (mapUser us uid f) v =
      (findUser us v).map (fun u => if u.user_id = uid then f u else u) := by
  unfold findUser mapUser
  have hp : ((fun u => decide (u.user_id = v)) ∘ (fun u => if u.user_id = uid then f u else u))
      = (fun u => decide (u.user_id = v)) := by
    funext u
    by_cases h : u.user_id = uid
    · simp [Function.comp, h, hf u]
    · simp [Function.comp, h]
  rw [List.find?_map, hp]

/-! Helper lemmas about the loan table updates. -/

theorem getLoanById_map (ls : List Loan) (g : Loan → Loan) (id : Nat)
    (hg : ∀ l, (g l).loan_id = l.loan_id) :
    getLoanById (ls.map g) id = (getLoanById ls id).map g := by
  unfold getLoanById
  have hp : ((fun l => decide (l.loan_id = id)) ∘ g) = (fun l => decide (l.loan_id = id)) := by
    funext l
    simp [Function.comp, hg l]
  rw [List.find?_map, hp]

theorem mem_keyed_eq {ls : List Loan} (hnd : (ls.map (fun l => l.loan_id)).Nodup)
    {a b : Loan} (ha : a ∈ ls) (hb : b ∈ ls) (h : a.loan_id = b.loan_id) : a = b :=
  List.inj_on_of_nodup_map hnd ha hb h

theorem getLoanById_mem {ls : List Loan} {id : Nat} {l : Loan}
    (h : getLoanById ls id = some l) : l ∈ ls ∧ l.loan_id = id := by
  unfold getLoanById at h
  refine ⟨List.mem_of_find?_eq_some h, ?_⟩
  have := List.find?_some h
  simpa using this

theorem getLoanById_of_mem {ls : List Loan} (hnd : (ls.map (fun l => l.loan_id)).Nodup)
    {l : Loan} (hm : l ∈ ls) : getLoanById ls l.loan_id = some l := by
  cases hfind : getLoanById ls l.loan_id with
  | none =>
      unfold getLoanById at hfind
      have := List.find?_eq_none.mp hfind l hm
      simp at this
  | some l0 =>
      have h2 := getLoanById_mem hfind
      rw [mem_keyed_eq hnd h2.1 hm h2.2]

theorem applyOne_fields (sf : Loan → Int → Option (Int × String)) (q : Loan × Int) (l : Loan) :
    (applyOne sf q l).loan_id = l.loan_id ∧ (applyOne sf q l).lender_id = l.lender_id ∧
    (applyOne sf q l).borrower_id = l.borrower_id ∧ (applyOne sf q l).due_amount = l.due_amount ∧
    (applyOne sf q l).due_date = l.due_date ∧ (applyOne sf q l).principal = l.principal ∧
    (applyOne sf q l).interest_rate = l.interest_rate ∧
    (applyOne sf q l).borrowed_at = l.borrowed_at := by
  unfold applyOne
  cases sf q.1 q.2 with
  | none => exact ⟨rfl, rfl, rfl, rfl, rfl, rfl, rfl, rfl⟩
  | some rs =>
      by_cases h : l.loan_id = q.1.loan_id <;> simp [h]

theorem applyMany_fields (sf : Loan → Int → Option (Int × String)) (ps : List (Loan × Int))
    (l : Loan) :
    (applyMany sf ps l).loan_id = l.loan_id ∧ (applyMany sf ps l).lender_id = l.lender_id ∧
    (applyMany sf ps l).borrower_id = l.borrower_id ∧
    (applyMany sf ps l).due_amount = l.due_amount ∧
    (applyMany sf ps l).due_date = l.due_date ∧ (applyMany sf ps l).principal = l.principal ∧
    (applyMany sf ps l).interest_rate = l.interest_rate ∧
    (applyMany sf ps l).borrowed_at = l.borrowed_at := by
  induction ps generalizing l with
  | nil => exact ⟨rfl, rfl, rfl, rfl, rfl, rfl, rfl, rfl⟩
  | cons q rest ih =>
      have hstep : applyMany sf (q :: rest) l = applyMany sf rest (applyOne sf q l) := rfl
      rw [hstep]
      have h1 := applyOne_fields sf q l
      have h2 := ih (applyOne sf q l)
      exact ⟨h2.1.trans h1.1, h2.2.1.trans h1.2.1, h2.2.2.1.trans h1.2.2.1,
        h2.2.2.2.1.trans h1.2.2.2.1, h2.2.2.2.2.1.trans h1.2.2.2.2.1,
        h2.2.2.2.2.2.1.trans h1.2.2.2.2.2.1, h2.2.2.2.2.2.2.1.trans h1.2.2.2.2.2.2.1,
        h2.2.2.2.2.2.2.2.trans h1.2.2.2.2.2.2.2⟩

theorem applyUpdates_eq_map (sf : Loan → Int → Option (Int × String)) (ls : List Loan)
    (ps : List (Loan × Int)) :
    applyUpdates sf ls ps = ls.map (applyMany sf ps) := by
  induction ps generalizing ls with
  | nil =>
      have h : ∀ ms : List Loan, List.map (applyMany sf []) ms = ms := by
        intro ms
        induction ms with
        | nil => rfl
        | cons x xs ihx =>
            rw [List.map_cons, ihx]
            rfl
      exact (h ls).symm
  | cons q rest ih =>
      cases hsf : sf q.1 q.2 with
      | none =>
          have h1 : applyUpdates sf ls (q :: rest) = applyUpdates sf ls rest := by
            unfold applyUpdates
            rw [List.foldl_cons]
            simp [hsf]
          have h2 : (fun l => applyMany sf (q :: rest) l) = (fun l => applyMany sf rest l) := by
            funext l
            have h3 : applyMany sf (q :: rest) l = applyMany sf rest (applyOne sf q l) := rfl
            rw [h3]
            unfold applyOne
            rw [hsf]
          rw [h1, ih]
          exact congrArg (fun f => List.map f ls) h2.symm
      | some rs =>
          have h1 : applyUpdates sf ls (q :: rest)
              = applyUpdates sf (setLoan ls q.1.loan_id rs.1 rs.2) rest := by
            unfold applyUpdates
            rw [List.foldl_cons]
            simp [hsf]
          have h2 : setLoan ls q.1.loan_id rs.1 rs.2 = ls.map (fun l => applyOne sf q l) := by
            unfold setLoan applyOne
            rw [hsf]
          rw [h1, h2, ih, List.map_map]
          exact congrArg (fun f => List.map f ls) rfl

theorem applyMany_shape (sf : Loan → Int → Option (Int × String)) (ps : List (Loan × Int))
    (l : Loan) :
    applyMany sf ps l = l ∨
      ∃ q ∈ ps, q.1.loan_id = l.loan_id ∧ ∃ rs, sf q.1 q.2 = some rs ∧
        applyMany sf ps l = { l with repaid_amount := rs.1, status := rs.2 } := by
  induction ps generalizing l with
  | nil => exact Or.inl rfl
  | cons q rest ih =>
      have hstep : applyMany sf (q :: rest) l = applyMany sf rest (applyOne sf q l) := rfl
      cases hsf : sf q.1 q.2 with
      | none =>
          have h1 : applyOne sf q l = l := by
            unfold applyOne
            rw [hsf]
          rw [hstep, h1]
          rcases ih l with h | ⟨q2, hq2, hid, rs, hrs, heq⟩
          · exact Or.inl h
          · exact Or.inr ⟨q2, List.mem_cons_of_mem _ hq2, hid, rs, hrs, heq⟩
      | some rs0 =>
          by_cases hid : l.loan_id = q.1.loan_id
          · have h1 : applyOne sf q l = { l with repaid_amount := rs0.1, status := rs0.2 } := by
              unfold applyOne
              rw [hsf]
              simp [hid]
            rw [hstep, h1]
            rcases ih { l with repaid_amount := rs0.1, status := rs0.2 } with h | h
            · exact Or.inr ⟨q, List.mem_cons_self _ _, hid.symm, rs0, hsf, h⟩
            · rcases h with ⟨q2, hq2, hid2, rs2, hrs2, heq2⟩
              refine Or.inr ⟨q2, List.mem_cons_of_mem _ hq2, ?_, rs2, hrs2, ?_⟩
              · simpa using hid2
              · rw [heq2]
          · have h1 : applyOne sf q l = l := by
              unfold applyOne
              rw [hsf]
              simp [hid]
            rw [hstep, h1]
            rcases ih l with h | ⟨q2, hq2, hid2, rs2, hrs2, heq2⟩
            · exact Or.inl h
            · exact Or.inr ⟨q2, List.mem_cons_of_mem _ hq2, hid2, rs2, hrs2, heq2⟩

/-! Helper lemmas about the allocation walk. -/

theorem allocate_mem_bounds (f : Int) (cs : List Loan) :
    ∀ q ∈ allocate f cs, 0 ≤ q.2 ∧ q.2 ≤ q.1.remaining_amount ∧ q.1 ∈ cs := by
  induction cs generalizing f with
  | nil =>
      intro q hq
      simp [allocate] at hq
  | cons c rest ih =>
      intro q hq
      unfold allocate at hq
      by_cases hf : f ≤ 0
      · rw [if_pos hf] at hq
        simp at hq
      · rw [if_neg hf] at hq
        rcases List.mem_cons.mp hq with h | h
        · subst h
          refine ⟨?_, min_le_right _ _, List.mem_cons_self _ _⟩
          have h0 : (0 : Int) ≤ c.remaining_amount := le_max_left _ _
          have h1 : (0 : Int) < f := lt_of_not_le hf
          exact le_min h1.le h0
        · rcases ih _ q h with ⟨a, b, c2⟩
          exact ⟨a, b, List.mem_cons_of_mem _ c2⟩

theorem allocTotal_nil : allocTotal [] = 0 := rfl

theorem allocTotal_cons (q : Loan × Int) (ps : List (Loan × Int)) :
    allocTotal (q :: ps) = q.2 + allocTotal ps := by
  simp [allocTotal]

theorem allocate_total_nonneg (f : Int) (cs : List Loan) :
    0 ≤ allocTotal (allocate f cs) := by
  induction cs generalizing f with
  | nil => simp [allocate, allocTotal]
  | cons c rest ih =>
      unfold allocate
      by_cases hf : f ≤ 0
      · rw [if_pos hf]
        simp [allocTotal]
      · rw [if_neg hf]
        rw [allocTotal_cons]
        have h0 : (0 : Int) ≤ c.remaining_amount := le_max_left _ _
        have h1 : (0 : Int) < f := lt_of_not_le hf
        have hx : 0 ≤ min f c.remaining_amount := le_min h1.le h0
        have := ih (f - min f c.remaining_amount)
        omega

theorem allocate_total_le (f : Int) (cs : List Loan) (hf : 0 ≤ f) :
    allocTotal (allocate f cs) ≤ f := by
  induction cs generalizing f with
  | nil => simpa [allocate, allocTotal] using hf
  | cons c rest ih =>
      unfold allocate
      by_cases h : f ≤ 0
      · rw [if_pos h]
        simpa [allocTotal] using hf
      · rw [if_neg h, allocTotal_cons]
        have hx : min f c.remaining_amount ≤ f := min_le_left _ _
        have h2 : 0 ≤ f - min f c.remaining_amount := by omega
        have := ih (f - min f c.remaining_amount) h2
        omega

theorem allocate_fst_sublist (f : Int) (cs : List Loan) :
    ((allocate f cs).map (fun q => q.1)).Sublist cs := by
  induction cs generalizing f with
  | nil => simp [allocate]
  | cons c rest ih =>
      unfold allocate
      by_cases hf : f ≤ 0
      · rw [if_pos hf]
        simp
      · rw [if_neg hf]
        simpa using List.Sublist.cons₂ c (ih (f - min f c.remaining_amount))

/-! Helper lemmas about state components untouched by the operations. -/

theorem update_coins_loans (st : St) (uid : String) (amt : Int) :
    (update_coins st uid amt).2.loans = st.loans ∧
    (update_coins st uid amt).2.nextId = st.nextId := by
  unfold update_coins
  cases getUser st uid <;> exact ⟨rfl, rfl⟩

theorem applyUpdates_cons (sf : Loan → Int → Option (Int × String)) (ls : List Loan)
    (q : Loan × Int) (rest : List (Loan × Int)) :
    applyUpdates sf ls (q :: rest) =
      applyUpdates sf
        (match sf q.1 q.2 with
         | none => ls
         | some rs => setLoan ls q.1.loan_id rs.1 rs.2) rest := by
  unfold applyUpdates
  rw [List.foldl_cons]

theorem repayAll_fold_loans (ps : List (Loan × Int)) (st : St) :
    (ps.foldl repayAllStep st).loans = applyUpdates settleKeepRule st.loans ps := by
  induction ps generalizing st with
  | nil => rfl
  | cons q rest ih =>
      rw [List.foldl_cons, ih, applyUpdates_cons]
      have h : (repayAllStep st q).loans =
          (match settleKeepRule q.1 q.2 with
           | none => st.loans
           | some rs => setLoan st.loans q.1.loan_id rs.1 rs.2) := by
        unfold repayAllStep settleKeepRule
        by_cases hq : q.2 ≤ 0
        · rw [if_pos hq, if_pos hq]
        · rw [if_neg hq, if_neg hq]
          by_cases hs : q.1.lender_id = "SYSTEM"
          · rw [if_pos hs]
          · rw [if_neg hs]
      rw [h]

theorem getLoanById_map_due {ls : List Loan} {g : Loan → Loan}
    (hg_id : ∀ l, (g l).loan_id = l.loan_id) (hg_due : ∀ l, (g l).due_amount = l.due_amount)
    {id : Nat} {loan : Loan} (h : getLoanById ls id = some loan) :
    ∃ l2, getLoanById (ls.map g) id = some l2 ∧ l2.due_amount = loan.due_amount := by
  rw [getLoanById_map ls g id hg_id, h]
  exact ⟨g loan, rfl, hg_due loan⟩

theorem getLoanById_append {ls : List Loan} {nl : Loan} {id : Nat} {loan : Loan}
    (h : getLoanById ls id = some loan) : getLoanById (ls ++ [nl]) id = some loan := by
  unfold getLoanById at h ⊢
  rw [List.find?_append, h]
  rfl

theorem due_preserved_applyUpdates (sf : Loan → Int → Option (Int × String))
    (ls : List Loan) (ps : List (Loan × Int)) {id : Nat} {loan : Loan}
    (h : getLoanById ls id = some loan) :
    ∃ l2, getLoanById (applyUpdates sf ls ps) id = some l2 ∧
      l2.due_amount = loan.due_amount := by
  rw [applyUpdates_eq_map]
  exact getLoanById_map_due (fun l => (applyMany_fields sf ps l).1)
    (fun l => (applyMany_fields sf ps l).2.2.2.1) h

/-! Branch lemmas: the loan table of each operation's post-state is either
unchanged or the applyUpdates image of the operation's allocation walk. -/

theorem repay_loan_loans (st : St) (b l : String) (amt : Int) :
    (repay_loan st b l amt).2.loans = st.loans ∨
      ∃ f, (repay_loan st b l amt).2.loans
        = applyUpdates settleRule st.loans (allocate f (repayCandidates st b l)) := by
  simp only [repay_loan]
  by_cases h1 : amt ≤ 0
  · rw [if_pos h1]
    exact Or.inl rfl
  · rw [if_neg h1]
    cases hb : getUser st b with
    | none => exact Or.inl rfl
    | some bu =>
        dsimp only
        by_cases h2 : bu.coins < amt
        · rw [if_pos h2]
          exact Or.inl rfl
        · rw [if_neg h2]
          by_cases h3 : (repayCandidates st b l).isEmpty
          · rw [if_pos h3]
            exact Or.inl rfl
          · rw [if_neg h3]
            exact Or.inr ⟨amt, rfl⟩

theorem repay_all_loans_loans (st : St) (b : String) :
    (repay_all_loans st b).2.loans = st.loans ∨
      ∃ f, (repay_all_loans st b).2.loans
        = applyUpdates settleKeepRule st.loans (allocate f (repayAllCandidates st b)) := by
  simp only [repay_all_loans]
  cases hb : getUser st b with
  | none => exact Or.inl rfl
  | some bu =>
      dsimp only
      by_cases h1 : bu.coins ≤ 0
      · rw [if_pos h1]
        exact Or.inl rfl
      · rw [if_neg h1]
        by_cases h2 : (st.loans.filter (repayAllPred b)).isEmpty
        · rw [if_pos h2]
          exact Or.inl rfl
        · rw [if_neg h2]
          exact Or.inr ⟨bu.coins, repayAll_fold_loans _ _⟩

theorem force_collect_loans (st : St) (l b : String) (amt : Option Int) :
    (force_collect st l b amt).2.loans = st.loans ∨
      ∃ f, (force_collect st l b amt).2.loans
        = applyUpdates settleRule st.loans (allocate f (collectSorted st l b)) := by
  simp only [force_collect]
  by_cases h1 : (get_active_loans_between_users st l b).isEmpty
  · rw [if_pos h1]
    exact Or.inl rfl
  · rw [if_neg h1]
    cases hca : (match amt with
      | none => some ((get_active_loans_between_users st l b).map Loan.remaining_amount).sum
      | some a =>
          if a ≤ 0 then none
          else some (min a ((get_active_loans_between_users st l b).map Loan.remaining_amount).sum)
      : Option Int) with
    | none => exact Or.inl rfl
    | some cA =>
        dsimp only
        cases hb : getUser st b with
        | none => exact Or.inl rfl
        | some bu =>
            dsimp only
            by_cases h2 : min cA bu.coins ≤ 0
            · rw [if_pos h2]
              exact Or.inl rfl
            · rw [if_neg h2]
              refine Or.inr ⟨min cA bu.coins, ?_⟩
              generalize hps : allocate (min cA bu.coins) (collectSorted st l b) = ps
              generalize hst1 : applyUpdates settleRule st.loans ps = ls1
              cases hdeb : update_coins { users := st.users, loans := ls1, nextId := st.nextId }
                  b (-allocTotal ps) with
              | mk ok2 st2 =>
                  have hst2 : st2.loans = ls1 := by
                    have h5 := (update_coins_loans
                      { users := st.users, loans := ls1, nextId := st.nextId }
                      b (-allocTotal ps)).1
                    rw [hdeb] at h5
                    exact h5
                  cases ok2 with
                  | false => exact hst2
                  | true =>
                      dsimp only
                      cases hcred : update_coins st2 l (allocTotal ps) with
                      | mk ok3 st3 =>
                          have hst3 : st3.loans = st2.loans := by
                            have h6 := (update_coins_loans st2 l (allocTotal ps)).1
                            rw [hcred] at h6
                            exact h6
                          cases ok3 with
                          | false =>
                              dsimp only
                              have h7 := (update_coins_loans st3 b (allocTotal ps)).1
                              rw [h7, hst3, hst2]
                          | true => exact hst3.trans hst2

theorem confirm_loan_loans (st : St) (lid : Nat) (uid : String) (now : Nat) :
    (confirm_loan st lid uid now).2.loans = st.loans ∨
      (confirm_loan st lid uid now).2.loans = st.loans.map
        (fun l => if l.loan_id = lid then { l with status := "active", borrowed_at := now }
                  else l) := by
  simp only [confirm_loan]
  cases hl : getLoanById st.loans lid with
  | none => exact Or.inl rfl
  | some loan =>
      dsimp only
      by_cases h1 : loan.borrower_id ≠ uid
      · rw [if_pos h1]
        exact Or.inl rfl
      · rw [if_neg h1]
        by_cases h2 : loan.status ≠ "pending"
        · rw [if_pos h2]
          exact Or.inl rfl
        · rw [if_neg h2]
          cases hlu : getUser st loan.lender_id with
          | none => exact Or.inl rfl
          | some lu =>
              dsimp only
              by_cases h3 : lu.coins < loan.principal
              · rw [if_pos h3]
                exact Or.inl rfl
              · rw [if_neg h3]
                exact Or.inr rfl

theorem mark_overdue_loans (st : St) (lid : Nat) (now : Nat) :
    (mark_overdue st lid now).loans = st.loans ∨
      ∃ r, (mark_overdue st lid now).loans = setLoan st.loans lid r "overdue" := by
  simp only [mark_overdue]
  cases hl : getLoanById st.loans lid with
  | none => exact Or.inl rfl
  | some loan =>
      dsimp only
      by_cases h1 : (loan.is_overdue now && decide (loan.status = "active")) = true
      · rw [if_pos h1]
        exact Or.inr ⟨loan.repaid_amount, rfl⟩
      · rw [if_neg h1]
        exact Or.inl rfl

/-- C3: in repay-everything mode the candidate loans are ordered by the fixed
three-key comparator (system loans first, then higher interest rate, then
earlier borrowed_at), each loan in that order receives min(remaining funds,
loan remaining amount), and for loans A(system, 10 percent, day 1),
B(peer, 8 percent, day 2), C(peer, 8 percent, day 0) the allocation order is
A, C, B. -/
theorem repay_all_three_key_order :
    (∀ st b, (repayAllCandidates st b).Perm (st.loans.filter (repayAllPred b)) ∧
      List.Sorted repayAllLe (repayAllCandidates st b)) ∧
    (∀ (f : Int) (loan : Loan) (rest : List Loan), 0 < f →
      allocate f (loan :: rest) =
        (loan, min f loan.remaining_amount) ::
          allocate (f - min f loan.remaining_amount) rest) ∧
    (repayAllCandidates exStABC "alice").map (fun l => l.loan_id) = [11, 13, 12] := by
  refine ⟨fun st b => ⟨List.perm_insertionSort _ _, List.sorted_insertionSort _ _⟩, ?_, ?_⟩
  · intro f loan rest hf
    have hA : ¬ f ≤ 0 := by omega
    simp only [allocate, hA, if_false]
  · decide

/-- Witness for C3: the allocation equation applied at a concrete positive
fund level and concrete loan. -/
theorem repay_all_three_key_order_witness :
    (0 : Int) < 5 ∧
      allocate 5 [exLoanA] =
        (exLoanA, min 5 exLoanA.remaining_amount) ::
          allocate (5 - min 5 exLoanA.remaining_amount) [] :=
  ⟨by decide, repay_all_three_key_order.2.1 5 exLoanA [] (by decide)⟩

/-- C2 counterexample: at a state whose only loan between the pair has status
'overdue', the collection walk sees no candidates (its query keeps only
status = 'active'), while the claimed candidate set (status active or overdue,
as the repayment walk uses) contains the loan. -/
theorem collect_excludes_overdue_cex :
    collectSorted exStOverdue "SYSTEM" "alice" = [] ∧
    specCollectCandidates exStOverdue "SYSTEM" "alice" = [exSysOverdue] ∧
    repayCandidates exStOverdue "alice" "SYSTEM" = [exSysOverdue] ∧
    (force_collect exStOverdue "SYSTEM" "alice" (some 100)).1 = false := by
  exact ⟨by decide, by decide, by decide, by decide⟩

/-- C2 amended: the repayment candidate set is exactly the active-or-overdue
loans between payer and counterparty, walked in ascending borrowed_at order;
the collection candidate set is exactly the loans of the pair with status
'active' only (overdue excluded), also walked in ascending borrowed_at
order. -/
theorem candidate_sets_and_order :
    ∀ st b l,
      (repayCandidates st b l).Perm (st.loans.filter (repayPred b l)) ∧
      List.Sorted ascBorrow (repayCandidates st b l) ∧
      (collectSorted st l b).Perm (st.loans.filter (betweenActive l b)) ∧
      List.Sorted ascBorrow (collectSorted st l b) := by
  intro st b l
  refine ⟨List.perm_insertionSort _ _, List.sorted_insertionSort _ _, ?_,
    List.sorted_insertionSort _ _⟩
  exact (List.perm_insertionSort _ _).trans (List.perm_insertionSort _ _)

/-- C4: evaluation at the failing input. The loan starts 'overdue' with due
300 and nothing repaid; a partial repayment of 100 through repay_loan
succeeds and stores status 'active' - the overdue-to-active transition the
state machine forbids (repay_all_loans, by contrast, preserves the stored
status). -/
theorem overdue_partial_repay_sets_active :
    exSysOverdue.status = "overdue" ∧
    (repay_loan exStOverdue "alice" "SYSTEM" 100).1 = true ∧
    ((repay_loan exStOverdue "alice" "SYSTEM" 100).2.loans.map
      (fun l => (l.loan_id, l.status, l.repaid_amount))) = [(1, "active", 100)] := by
  exact ⟨by decide, by decide, by decide⟩

/-- C5 counterexample: with a well-funded borrower and an empty candidate
set, the single-counterparty repayment reports failure, not the claimed
success-with-zero-applied. -/
theorem repay_empty_returns_error_cex :
    (0 : Int) < 50 ∧ (50 : Int) ≤ exAlice.coins ∧
    repayCandidates exStPlain "alice" "bob" = [] ∧
    repay_loan exStPlain "alice" "bob" 50 = (false, exStPlain) := by
  exact ⟨by decide, by decide, by decide, by decide⟩

/-- C5 amended: on an empty candidate set, repay_all_loans (with a positive
balance) returns success with no state change, while the single-counterparty
repay_loan (with a validated amount) returns an error with no state
change. -/
theorem empty_candidates_results :
    ∀ st b l amt bu, getUser st b = some bu →
      (0 < amt → amt ≤ bu.coins → repayCandidates st b l = [] →
        repay_loan st b l amt = (false, st)) ∧
      (0 < bu.coins → st.loans.filter (repayAllPred b) = [] →
        repay_all_loans st b = (true, st)) := by
  intro st b l amt bu hbu
  constructor
  · intro h1 h2 hc
    have hA : ¬ amt ≤ 0 := by omega
    have hB : ¬ bu.coins < amt := by omega
    simp only [repay_loan, hbu, hc, hA, if_false, List.isEmpty_nil, if_true]
    simp [hB]
  · intro h1 hc
    have hA : ¬ bu.coins ≤ 0 := by omega
    simp only [repay_all_loans, hbu, hc, List.isEmpty_nil, if_true]
    simp [hA]

/-- Witness for C5: the amended statement applied at a concrete state with
accounts but no loans. -/
theorem empty_candidates_results_witness :
    getUser exStPlain "alice" = some exAlice ∧
    repay_loan exStPlain "alice" "bob" 50 = (false, exStPlain) ∧
    repay_all_loans exStPlain "alice" = (true, exStPlain) :=
  ⟨by decide,
   (empty_candidates_results exStPlain "alice" "bob" 50 exAlice (by decide)).1
     (by decide) (by decide) (by decide),
   (empty_candidates_results exStPlain "alice" "bob" 50 exAlice (by decide)).2
     (by decide) (by decide)⟩

/-- C9 counterexample: create_loan computes due_amount with Python float
(binary64) arithmetic, not from the exact rational product. At principal
268435455 and interest_rate 2^-28 the rounded product crosses the next
integer: the stored due_amount is 268435456 while the floor of the exact
rational product is 268435455. -/
theorem due_amount_not_exact_floor_cex :
    (create_loan exStPlain "alice" "bob" 268435455 (mkRat 1 268435456) 0).1 = true ∧
    ((create_loan exStPlain "alice" "bob" 268435455 (mkRat 1 268435456) 0).2.loans.map
      (fun l => l.due_amount)) = [268435456] ∧
    ratFloor ((268435455 : ℚ) * (1 + mkRat 1 268435456)) = 268435455 ∧
    (268435456 : Int) ≠ 268435455 := by
  refine ⟨by decide, by decide, ?_, by decide⟩
  have h1 : ((268435455 : ℤ) : ℚ) = (268435455 : ℚ) := by norm_num
  rw [← h1, ← qOfInt_eq, ← qAdd_eq, ← qMul_eq]
  decide

/-- C9 amended: due_amount is computed once at creation as the Python-float
evaluation int(principal * (1 + interest_rate)) - double rounding included -
and no later operation ever changes it: every loan reachable by id before an
operation is still found after it with an identical due_amount. -/
theorem due_amount_formula_and_immutable :
    (∀ st l b p r now, (create_loan st l b p r now).1 = true →
      ∃ nl, (create_loan st l b p r now).2.loans = st.loans ++ [nl] ∧
        nl.principal = p ∧ nl.interest_rate = r ∧ nl.due_amount = pyDue p r) ∧
    (∀ cfg st b amt now, (borrow_from_system cfg st b amt now).1 = true →
      ∃ nl, (borrow_from_system cfg st b amt now).2.loans = st.loans ++ [nl] ∧
        nl.interest_rate = cfg.default_interest_rate ∧
        nl.due_amount = pyDue nl.principal cfg.default_interest_rate) ∧
    (∀ st b l amt id loan, getLoanById st.loans id = some loan →
      ∃ l2, getLoanById (repay_loan st b l amt).2.loans id = some l2 ∧
        l2.due_amount = loan.due_amount) ∧
    (∀ st b id loan, getLoanById st.loans id = some loan →
      ∃ l2, getLoanById (repay_all_loans st b).2.loans id = some l2 ∧
        l2.due_amount = loan.due_amount) ∧
    (∀ st l b amt id loan, getLoanById st.loans id = some loan →
      ∃ l2, getLoanById (force_collect st l b amt).2.loans id = some l2 ∧
        l2.due_amount = loan.due_amount) ∧
    (∀ st lid uid now id loan, getLoanById st.loans id = some loan →
      ∃ l2, getLoanById (confirm_loan st lid uid now).2.loans id = some l2 ∧
        l2.due_amount = loan.due_amount) ∧
    (∀ st lid now id loan, getLoanById st.loans id = some loan →
      ∃ l2, getLoanById (mark_overdue st lid now).loans id = some l2 ∧
        l2.due_amount = loan.due_amount) ∧
    (∀ st l b p r now id loan, getLoanById st.loans id = some loan →
      ∃ l2, getLoanById (create_loan st l b p r now).2.loans id = some l2 ∧
        l2.due_amount = loan.due_amount) ∧
    (∀ cfg st b amt now id loan, getLoanById st.loans id = some loan →
      ∃ l2, getLoanById (borrow_from_system cfg st b amt now).2.loans id = some l2 ∧
        l2.due_amount = loan.due_amount) := by
  refine ⟨?_, ?_, ?_, ?_, ?_, ?_, ?_, ?_, ?_⟩
  · intro st l b p r now hsucc
    simp only [create_loan] at hsucc ⊢
    by_cases h1 : l = b
    · rw [if_pos h1] at hsucc
      simp at hsucc
    · rw [if_neg h1] at hsucc ⊢
      by_cases h2 : p ≤ 0
      · rw [if_pos h2] at hsucc
        simp at hsucc
      · rw [if_neg h2] at hsucc ⊢
        by_cases h3 : l ≠ "SYSTEM"
        · rw [if_pos h3] at hsucc ⊢
          exact ⟨_, rfl, rfl, rfl, rfl⟩
        · rw [if_neg h3] at hsucc ⊢
          cases hl : getUser st l with
          | none =>
              rw [hl] at hsucc
              simp at hsucc
          | some lu =>
              rw [hl] at hsucc
              dsimp only at hsucc ⊢
              by_cases h4 : lu.coins < p
              · rw [if_pos h4] at hsucc
                simp at hsucc
              · rw [if_neg h4] at hsucc ⊢
                cases hb : getUser st b with
                | none =>
                    rw [hb] at hsucc
                    simp at hsucc
                | some bu =>
                    exact ⟨_, rfl, rfl, rfl, rfl⟩
  · intro cfg st b amt now hsucc
    simp only [borrow_from_system] at hsucc ⊢
    cases hb : getUser st b with
    | none =>
        rw [hb] at hsucc
        simp at hsucc
    | some bu =>
        rw [hb] at hsucc
        dsimp only at hsucc ⊢
        by_cases h1 : (getActiveSystemLoan st b).isSome
        · rw [if_pos h1] at hsucc
          simp at hsucc
        · rw [if_neg h1] at hsucc ⊢
          by_cases h2 : hasOverdueSystemLoan st b now = true
          · rw [if_pos h2] at hsucc
            simp at hsucc
          · rw [if_neg h2] at hsucc ⊢
            by_cases h3 : pyCap bu.max_coins cfg.system_loan_ratio ≤ 0
            · rw [if_pos h3] at hsucc
              simp at hsucc
            · rw [if_neg h3] at hsucc ⊢
              split at hsucc
              · simp at hsucc
              · rename_i amt2 heq
                by_cases h5 : (update_coins st b amt2).1 = true
                · rw [if_pos h5]
                  exact ⟨_, by dsimp only; rw [(update_coins_loans st b amt2).1], rfl, rfl⟩
                · rw [if_neg h5] at hsucc
                  simp at hsucc
  · intro st b l amt id loan h
    rcases repay_loan_loans st b l amt with h2 | ⟨f, h2⟩
    · exact ⟨loan, by rw [h2, h], rfl⟩
    · rw [h2]
      exact due_preserved_applyUpdates _ _ _ h
  · intro st b id loan h
    rcases repay_all_loans_loans st b with h2 | ⟨f, h2⟩
    · exact ⟨loan, by rw [h2, h], rfl⟩
    · rw [h2]
      exact due_preserved_applyUpdates _ _ _ h
  · intro st l b amt id loan h
    rcases force_collect_loans st l b amt with h2 | ⟨f, h2⟩
    · exact ⟨loan, by rw [h2, h], rfl⟩
    · rw [h2]
      exact due_preserved_applyUpdates _ _ _ h
  · intro st lid uid now id loan h
    rcases confirm_loan_loans st lid uid now with h2 | h2
    · exact ⟨loan, by rw [h2, h], rfl⟩
    · rw [h2]
      refine getLoanById_map_due ?_ ?_ h
      · intro l2
        by_cases h3 : l2.loan_id = lid <;> simp [h3]
      · intro l2
        by_cases h3 : l2.loan_id = lid <;> simp [h3]
  · intro st lid now id loan h
    rcases mark_overdue_loans st lid now with h2 | ⟨r, h2⟩
    · exact ⟨loan, by rw [h2, h], rfl⟩
    · rw [h2]
      unfold setLoan
      refine getLoanById_map_due ?_ ?_ h
      · intro l2
        by_cases h3 : l2.loan_id = lid <;> simp [h3]
      · intro l2
        by_cases h3 : l2.loan_id = lid <;> simp [h3]
  · intro st l b p r now id loan h
    simp only [create_loan]
    by_cases h1 : l = b
    · rw [if_pos h1]
      exact ⟨loan, h, rfl⟩
    · rw [if_neg h1]
      by_cases h2 : p ≤ 0
      · rw [if_pos h2]
        exact ⟨loan, h, rfl⟩
      · rw [if_neg h2]
        by_cases h3 : l ≠ "SYSTEM"
        · rw [if_pos h3]
          exact ⟨loan, getLoanById_append h, rfl⟩
        · rw [if_neg h3]
          cases hl : getUser st l with
          | none => exact ⟨loan, h, rfl⟩
          | some lu =>
              dsimp only
              by_cases h4 : lu.coins < p
              · rw [if_pos h4]
                exact ⟨loan, h, rfl⟩
              · rw [if_neg h4]
                cases hb : getUser st b with
                | none => exact ⟨loan, h, rfl⟩
                | some bu => exact ⟨loan, getLoanById_append h, rfl⟩
  · intro cfg st b amt now id loan h
    simp only [borrow_from_system]
    cases hb : getUser st b with
    | none => exact ⟨loan, h, rfl⟩
    | some bu =>
        dsimp only
        by_cases h1 : (getActiveSystemLoan st b).isSome
        · rw [if_pos h1]
          exact ⟨loan, h, rfl⟩
        · rw [if_neg h1]
          by_cases h2 : hasOverdueSystemLoan st b now = true
          · rw [if_pos h2]
            exact ⟨loan, h, rfl⟩
          · rw [if_neg h2]
            by_cases h3 : pyCap bu.max_coins cfg.system_loan_ratio ≤ 0
            · rw [if_pos h3]
              exact ⟨loan, h, rfl⟩
            · rw [if_neg h3]
              split
              · exact ⟨loan, h, rfl⟩
              · rename_i amt2 heq
                by_cases h5 : (update_coins st b amt2).1 = true
                · rw [if_pos h5]
                  refine ⟨loan, ?_, rfl⟩
                  dsimp only
                  have h6 : (update_coins st b amt2).2.loans = st.loans :=
                    (update_coins_loans st b amt2).1
                  rw [h6]
                  exact getLoanById_append h
                · rw [if_neg h5]
                  exact ⟨loan, h, rfl⟩

/-- Witness for C9: the amended statement applied at a concrete loan creation
and at a concrete repayment over an existing loan. -/
theorem due_amount_formula_and_immutable_witness :
    (create_loan exStPlain "alice" "bob" 100 (mkRat 1 20) 0).1 = true ∧
    (∃ nl, (create_loan exStPlain "alice" "bob" 100 (mkRat 1 20) 0).2.loans
        = exStPlain.loans ++ [nl] ∧
      nl.principal = 100 ∧ nl.interest_rate = mkRat 1 20 ∧
      nl.due_amount = pyDue 100 (mkRat 1 20)) ∧
    getLoanById exStPeer.loans 2 = some exPeerActive ∧
    (∃ l2, getLoanById (repay_loan exStPeer "alice" "bob" 100).2.loans 2 = some l2 ∧
      l2.due_amount = exPeerActive.due_amount) :=
  ⟨by decide,
   due_amount_formula_and_immutable.1 exStPlain "alice" "bob" 100 (mkRat 1 20) 0 (by decide),
   by decide,
   due_amount_formula_and_immutable.2.2.1 exStPeer "alice" "bob" 100 2 exPeerActive (by decide)⟩

theorem findUser_some_id {us : List UserRec} {uid : String} {u : UserRec}
    (h : findUser us uid = some u) : u.user_id = uid := by
  unfold findUser at h
  have := List.find?_some h
  simpa using this

/-- Lender-debit, borrower-credit, borrower-peak-raise: the row the borrower
lookup sees afterwards, when lender and borrower differ. -/
theorem credit_raise_at_borrower (us : List UserRec) (lender borrower : String) (p : Int)
    (hne : lender ≠ borrower) {bu : UserRec} (hbu : findUser us borrower = some bu) :
    findUser (sqlRaiseMax (sqlCredit (sqlDebitClamp us lender p) borrower p) borrower) borrower
      = some (creditRaise bu p) := by
  have hid : bu.user_id = borrower := findUser_some_id hbu
  have hlender : ¬ bu.user_id = lender := by
    rw [hid]
    exact fun h => hne h.symm
  have s1 : findUser (sqlDebitClamp us lender p) borrower = some bu := by
    unfold sqlDebitClamp
    rw [findUser_mapUser us lender borrower
      (fun u => { u with coins := max 0 (u.coins - p) }) (fun u => rfl), hbu]
    simp only [Option.map_some']
    rw [if_neg hlender]
  have s2 : findUser (sqlCredit (sqlDebitClamp us lender p) borrower p) borrower
      = some { bu with coins := bu.coins + p } := by
    unfold sqlCredit
    rw [findUser_mapUser (sqlDebitClamp us lender p) borrower borrower
      (fun u => { u with coins := u.coins + p }) (fun u => rfl), s1]
    simp only [Option.map_some']
    rw [if_pos hid]
  unfold creditRaise sqlRaiseMax
  rw [findUser_mapUser (sqlCredit (sqlDebitClamp us lender p) borrower p) borrower borrower
    (fun u => if u.max_coins < u.coins then { u with max_coins := u.coins } else u)
    (fun u => by by_cases h : u.max_coins < u.coins <;> simp [h]), s2]
  simp only [Option.map_some']
  rw [if_pos (show ({ bu with coins := bu.coins + p } : UserRec).user_id = borrower from hid)]
  by_cases h2 : bu.max_coins < bu.coins + p
  · rw [if_pos (show ({ bu with coins := bu.coins + p } : UserRec).max_coins
        < ({ bu with coins := bu.coins + p } : UserRec).coins from h2)]
    rw [max_eq_right h2.le]
  · rw [if_neg (show ¬ ({ bu with coins := bu.coins + p } : UserRec).max_coins
        < ({ bu with coins := bu.coins + p } : UserRec).coins from h2)]
    rw [max_eq_left (le_of_not_lt h2)]

theorem update_coins_users_max (st : St) (uid : String) (amt : Int) (v : String) :
    ((findUser (update_coins st uid amt).2.users v).map (fun u => u.max_coins))
      = (findUser st.users v).map (fun u => u.max_coins) := by
  unfold update_coins
  cases h : getUser st uid with
  | none => rfl
  | some u0 =>
      dsimp only
      rw [findUser_mapUser st.users uid v
        (fun u => { u with coins := max 0 (u.coins + amt) }) (fun u => rfl)]
      cases findUser st.users v with
      | none => rfl
      | some u =>
          by_cases h2 : u.user_id = uid <;> simp [h2]

/-- C10: crediting the borrower with peer-loan principal at confirmation, and
the direct-transfer branch of create_loan, both raise the borrower's
historical peak balance to the new balance when it exceeds the old peak,
whereas borrow_from_system never changes any account's max_coins. -/
theorem max_coins_raise_behavior :
    (∀ st lid uid now loan bu, getLoanById st.loans lid = some loan →
      loan.lender_id ≠ loan.borrower_id →
      getUser st loan.borrower_id = some bu →
      (confirm_loan st lid uid now).1 = true →
      getUser (confirm_loan st lid uid now).2 loan.borrower_id
        = some (creditRaise bu loan.principal)) ∧
    (∀ st b p r now bu, getUser st b = some bu →
      (create_loan st "SYSTEM" b p r now).1 = true →
      getUser (create_loan st "SYSTEM" b p r now).2 b
        = some (creditRaise bu p)) ∧
    (∀ cfg st b amt now v,
      ((getUser (borrow_from_system cfg st b amt now).2 v).map (fun u => u.max_coins))
        = (getUser st v).map (fun u => u.max_coins)) := by
  refine ⟨?_, ?_, ?_⟩
  · intro st lid uid now loan bu hloan hne hbu hsucc
    simp only [confirm_loan] at hsucc ⊢
    rw [hloan] at hsucc ⊢
    dsimp only at hsucc ⊢
    by_cases h1 : loan.borrower_id ≠ uid
    · rw [if_pos h1] at hsucc
      simp at hsucc
    · rw [if_neg h1] at hsucc ⊢
      by_cases h2 : loan.status ≠ "pending"
      · rw [if_pos h2] at hsucc
        simp at hsucc
      · rw [if_neg h2] at hsucc ⊢
        cases hlu : getUser st loan.lender_id with
        | none =>
            rw [hlu] at hsucc
            simp at hsucc
        | some lu =>
            rw [hlu] at hsucc
            dsimp only at hsucc ⊢
            by_cases h3 : lu.coins < loan.principal
            · rw [if_pos h3] at hsucc
              simp at hsucc
            · rw [if_neg h3]
              exact credit_raise_at_borrower st.users loan.lender_id loan.borrower_id
                loan.principal hne hbu
  · intro st b p r now bu hbu hsucc
    simp only [create_loan] at hsucc ⊢
    by_cases h1 : "SYSTEM" = b
    · rw [if_pos h1] at hsucc
      simp at hsucc
    · rw [if_neg h1] at hsucc ⊢
      by_cases h2 : p ≤ 0
      · rw [if_pos h2] at hsucc
        simp at hsucc
      · rw [if_neg h2] at hsucc ⊢
        rw [if_neg (by simp)] at hsucc ⊢
        cases hlu : getUser st "SYSTEM" with
        | none =>
            rw [hlu] at hsucc
            simp at hsucc
        | some lu =>
            rw [hlu] at hsucc
            dsimp only at hsucc ⊢
            by_cases h3 : lu.coins < p
            · rw [if_pos h3] at hsucc
              simp at hsucc
            · rw [if_neg h3]
              rw [hbu]
              exact credit_raise_at_borrower st.users "SYSTEM" b p h1 hbu
  · intro cfg st b amt now v
    simp only [borrow_from_system]
    cases hb : getUser st b with
    | none => rfl
    | some bu =>
        dsimp only
        by_cases h1 : (getActiveSystemLoan st b).isSome
        · rw [if_pos h1]
        · rw [if_neg h1]
          by_cases h2 : hasOverdueSystemLoan st b now = true
          · rw [if_pos h2]
          · rw [if_neg h2]
            by_cases h3 : pyCap bu.max_coins cfg.system_loan_ratio ≤ 0
            · rw [if_pos h3]
            · rw [if_neg h3]
              split
              · rfl
              · rename_i amt2 heq
                by_cases h5 : (update_coins st b amt2).1 = true
                · rw [if_pos h5]
                  exact update_coins_users_max st b amt2 v
                · rw [if_neg h5]

/-- Witness for C10: the three parts applied at the concrete pending-loan
confirmation, the concrete direct-transfer creation, and a concrete system
borrowing. -/
theorem max_coins_raise_behavior_witness :
    getUser (confirm_loan exStPending 5 "alice" 9).2 exPendingLoan.borrower_id
        = some (creditRaise exAlice exPendingLoan.principal) ∧
    creditRaise exAlice exPendingLoan.principal
        = { user_id := "alice", coins := 507, max_coins := 600 } ∧
    getUser (create_loan exStWithSystem "SYSTEM" "alice" 200 (mkRat 1 20) 0).2 "alice"
        = some (creditRaise exAlice 200) ∧
    creditRaise exAlice 200 = { user_id := "alice", coins := 700, max_coins := 700 } ∧
    ((getUser (borrow_from_system exCfg exStPlain "alice" (some 30) 0).2 "alice").map
      (fun u => u.max_coins)) = (getUser exStPlain "alice").map (fun u => u.max_coins) :=
  ⟨max_coins_raise_behavior.1 exStPending 5 "alice" 9 exPendingLoan exAlice
     (by decide) (by decide) (by decide) (by decide),
   by decide,
   max_coins_raise_behavior.2.1 exStWithSystem "alice" 200 (mkRat 1 20) 0 exAlice
     (by decide) (by decide),
   by decide,
   max_coins_raise_behavior.2.2 exCfg exStPlain "alice" (some 30) 0 "alice"⟩

theorem mapUser_mapUser (us : List UserRec) (uid : String) (f g : UserRec → UserRec)
    (hf : ∀ u, (f u).user_id = u.user_id) :
    mapUser (mapUser us uid f) uid g = mapUser us uid (fun u => g (f u)) := by
  unfold mapUser
  rw [List.map_map]
  apply List.map_congr_left
  intro u _
  by_cases h : u.user_id = uid
  · simp [Function.comp, h, hf u]
  · simp [Function.comp, h]

theorem mapUser_eq_self (us : List UserRec) (uid : String) (f : UserRec → UserRec)
    (h : ∀ u ∈ us, u.user_id = uid → f u = u) : mapUser us uid f = us := by
  unfold mapUser
  have h2 : ∀ u ∈ us, (if u.user_id = uid then f u else u) = u := by
    intro u hu
    by_cases h3 : u.user_id = uid
    · rw [if_pos h3]
      exact h u hu h3
    · rw [if_neg h3]
  induction us with
  | nil => rfl
  | cons x xs ih =>
      rw [List.map_cons, h2 x (List.mem_cons_self _ _),
        ih (fun u hu hid => h u (List.mem_cons_of_mem _ hu) hid)
           (fun u hu => h2 u (List.mem_cons_of_mem _ hu))]

theorem update_coins_found (st : St) (uid : String) (amt : Int) {bu : UserRec}
    (h : getUser st uid = some bu) :
    update_coins st uid amt = (true,
      { users := mapUser st.users uid (fun u => { u with coins := max 0 (u.coins + amt) }),
        loans := st.loans, nextId := st.nextId }) := by
  unfold update_coins
  rw [h]

theorem update_coins_missing (st : St) (uid : String) (amt : Int)
    (h : getUser st uid = none) : update_coins st uid amt = (false, st) := by
  unfold update_coins
  rw [h]

theorem findUser_mem_eq {us : List UserRec} {v0 : String}
    (hnd : (us.map (fun u => u.user_id)).Nodup) {u v : UserRec}
    (hm : u ∈ us) (hid : u.user_id = v0) (hfind : findUser us v0 = some v) : u = v := by
  have hvm : v ∈ us := List.mem_of_find?_eq_some hfind
  have hv : v.user_id = v0 := findUser_some_id hfind
  exact List.inj_on_of_nodup_map hnd hm hvm (hid.trans hv.symm)

/-- C6 counterexample: collecting from a loan whose lender has no account row
reports failure after the loan-record updates have already been persisted:
the balances are restored (debit compensated) but the loan table differs from
the pre-call table, so the failure is observably partial, contradicting the
all-or-none claim. -/
theorem collect_partial_effect_cex :
    (force_collect exStGhost "ghost" "alice" none).1 = false ∧
    (force_collect exStGhost "ghost" "alice" none).2.users = exStGhost.users ∧
    (force_collect exStGhost "ghost" "alice" none).2.loans ≠ exStGhost.loans ∧
    ((force_collect exStGhost "ghost" "alice" none).2.loans.map
      (fun l => (l.loan_id, l.repaid_amount, l.status))) = [(3, 400, "paid")] := by
  exact ⟨by decide, by decide, by decide, by decide⟩

/-- C6 amended: whenever force_collect reports failure the account balances
are unchanged - in particular a debit that preceded a failed credit has been
compensated - but the loan-record updates that were persisted before the
failure are not rolled back (see the counterexample). User rows are keyed
uniquely (primary key), which the Nodup hypothesis captures. -/
theorem collect_failure_balances_restored :
    ∀ st l b amount, (st.users.map (fun u => u.user_id)).Nodup →
      (force_collect st l b amount).1 = false →
      (force_collect st l b amount).2.users = st.users := by
  intro st l b amount hnd hfail
  simp only [force_collect] at hfail ⊢
  by_cases h1 : (get_active_loans_between_users st l b).isEmpty
  · rw [if_pos h1]
  · rw [if_neg h1] at hfail ⊢
    split at hfail
    · rfl
    · rename_i cA heqCA
      split at hfail
      · rfl
      · rename_i bu heqB
        by_cases h2 : min cA bu.coins ≤ 0
        · rw [if_pos h2]
        · rw [if_neg h2] at hfail ⊢
          have hTnn : 0 ≤ allocTotal (allocate (min cA bu.coins) (collectSorted st l b)) :=
            allocate_total_nonneg _ _
          have hTle : allocTotal (allocate (min cA bu.coins) (collectSorted st l b))
              ≤ min cA bu.coins := allocate_total_le _ _ (by omega)
          have hminb : min cA bu.coins ≤ bu.coins := min_le_right _ _
          generalize hps : allocate (min cA bu.coins) (collectSorted st l b) = ps
            at hfail hTnn hTle ⊢
          generalize hls : applyUpdates settleRule st.loans ps = ls1 at hfail ⊢
          have hbu1 : getUser { users := st.users, loans := ls1, nextId := st.nextId } b
              = some bu := heqB
          rw [update_coins_found _ _ _ hbu1] at hfail ⊢
          dsimp only at hfail ⊢
          cases hcl : getUser { users := mapUser st.users b (fun u => { u with coins := max 0 (u.coins + -allocTotal ps) }), loans := ls1, nextId := st.nextId } l with
          | some lu =>
              rw [update_coins_found _ _ _ hcl] at hfail
              simp at hfail
          | none =>
              rw [update_coins_missing _ _ _ hcl] at hfail ⊢
              dsimp only at hfail ⊢
              have hbu2 : findUser st.users b = some bu := heqB
              have hb2 : getUser { users := mapUser st.users b (fun u => { u with coins := max 0 (u.coins + -allocTotal ps) }), loans := ls1, nextId := st.nextId } b = some { bu with coins := max 0 (bu.coins + -allocTotal ps) } := by
                show findUser (mapUser st.users b (fun u => { u with coins := max 0 (u.coins + -allocTotal ps) })) b = _
                rw [findUser_mapUser st.users b b
                  (fun u => { u with coins := max 0 (u.coins + -allocTotal ps) })
                  (fun u => rfl), hbu2]
                simp only [Option.map_some']
                rw [if_pos (findUser_some_id hbu2)]
              rw [update_coins_found _ _ _ hb2]
              dsimp only
              rw [mapUser_mapUser st.users b
                (fun u => { u with coins := max 0 (u.coins + -allocTotal ps) })
                (fun u => { u with coins := max 0 (u.coins + allocTotal ps) })
                (fun u => rfl)]
              apply mapUser_eq_self
              intro u hu hid
              have huq : u = bu := findUser_mem_eq hnd hu hid hbu2
              subst huq
              have harith : max 0 (max 0 (u.coins + -allocTotal ps) + allocTotal ps)
                  = u.coins := by
                rw [max_eq_right (by omega : (0:ℤ) ≤ u.coins + -allocTotal ps)]
                rw [max_eq_right (by omega : (0:ℤ) ≤ u.coins + -allocTotal ps + allocTotal ps)]
                omega
              rw [harith]

/-- Witness for C6: the amended statement applied at the concrete state whose
lender account is absent. -/
theorem collect_failure_balances_restored_witness :
    (exStGhost.users.map (fun u => u.user_id)).Nodup ∧
    (force_collect exStGhost "ghost" "alice" none).1 = false ∧
    (force_collect exStGhost "ghost" "alice" none).2.users = exStGhost.users :=
  ⟨by decide, by decide,
   collect_failure_balances_restored exStGhost "ghost" "alice" none (by decide) (by decide)⟩

/-! Helper lemmas for the repaid_amount invariants: candidate membership,
the repaid component of the two update rules, and the generic
monotonicity/bound of an allocation walk over a keyed table. -/

theorem repayCandidates_mem (st : St) (b l : String) :
    ∀ c ∈ repayCandidates st b l,
      c ∈ st.loans ∧ (c.status = "active" ∨ c.status = "overdue") := by
  intro c hc
  unfold repayCandidates at hc
  have hp := (List.perm_insertionSort ascBorrow
    (st.loans.filter (repayPred b l))).mem_iff.mp hc
  have h2 := List.mem_filter.mp hp
  refine ⟨h2.1, ?_⟩
  have h3 := h2.2
  unfold repayPred at h3
  simp at h3
  exact h3.2

theorem repayAllCandidates_mem (st : St) (b : String) :
    ∀ c ∈ repayAllCandidates st b,
      c ∈ st.loans ∧ (c.status = "active" ∨ c.status = "overdue") := by
  intro c hc
  unfold repayAllCandidates at hc
  have hp := (List.perm_insertionSort repayAllLe
    (st.loans.filter (repayAllPred b))).mem_iff.mp hc
  have h2 := List.mem_filter.mp hp
  refine ⟨h2.1, ?_⟩
  have h3 := h2.2
  unfold repayAllPred at h3
  simp at h3
  exact h3.2

theorem collectSorted_mem (st : St) (l b : String) :
    ∀ c ∈ collectSorted st l b, c ∈ st.loans ∧ c.status = "active" := by
  intro c hc
  unfold collectSorted at hc
  have h1 := (List.perm_insertionSort ascBorrow
    (get_active_loans_between_users st l b)).mem_iff.mp hc
  unfold get_active_loans_between_users at h1
  have h2 := (List.perm_insertionSort descBorrow
    (st.loans.filter (betweenActive l b))).mem_iff.mp h1
  have h3 := List.mem_filter.mp h2
  refine ⟨h3.1, ?_⟩
  have h4 := h3.2
  unfold betweenActive at h4
  simp at h4
  exact h4.2

theorem settleRule_repaid (l : Loan) (x : Int) (rs : Int × String)
    (h : settleRule l x = some rs) : rs.1 = l.repaid_amount + x := by
  unfold settleRule at h
  injection h with h2
  rw [← h2]

theorem settleKeepRule_repaid (l : Loan) (x : Int) (rs : Int × String)
    (h : settleKeepRule l x = some rs) : rs.1 = l.repaid_amount + x := by
  unfold settleKeepRule at h
  by_cases hx : x ≤ 0
  · rw [if_pos hx] at h
    simp at h
  · rw [if_neg hx] at h
    injection h with h2
    rw [← h2]

theorem repaid_mono_applyUpdates (sf : Loan → Int → Option (Int × String))
    (hsf : ∀ l x rs, sf l x = some rs → rs.1 = l.repaid_amount + x)
    (f : Int) (cands : List Loan) (ls : List Loan)
    (hnd : (ls.map (fun x => x.loan_id)).Nodup)
    (hc : ∀ c ∈ cands, c ∈ ls)
    {id : Nat} {loan : Loan} (h : getLoanById ls id = some loan) :
    ∃ l2, getLoanById (applyUpdates sf ls (allocate f cands)) id = some l2 ∧
      loan.repaid_amount ≤ l2.repaid_amount ∧
      (loan.repaid_amount ≤ loan.due_amount → l2.repaid_amount ≤ l2.due_amount) := by
  rw [applyUpdates_eq_map]
  rw [getLoanById_map ls (applyMany sf (allocate f cands)) id
    (fun l => (applyMany_fields sf (allocate f cands) l).1), h]
  refine ⟨applyMany sf (allocate f cands) loan, rfl, ?_⟩
  have hmem : loan ∈ ls := (getLoanById_mem h).1
  rcases applyMany_shape sf (allocate f cands) loan with hu | ⟨q, hq, hid, rs, hrs, heq⟩
  · rw [hu]
    exact ⟨le_refl _, fun hb => hb⟩
  · have hb := allocate_mem_bounds f cands q hq
    have hq1 : q.1 ∈ ls := hc q.1 hb.2.2
    have hqeq : q.1 = loan := mem_keyed_eq hnd hq1 hmem hid
    have hr : rs.1 = loan.repaid_amount + q.2 := by
      have h5 := hsf q.1 q.2 rs hrs
      rw [hqeq] at h5
      exact h5
    have h6 : q.2 ≤ loan.remaining_amount := by
      have h7 := hb.2.1
      rw [hqeq] at h7
      exact h7
    unfold Loan.remaining_amount at h6
    rw [heq]
    refine ⟨?_, ?_⟩
    · dsimp only
      have h8 := hb.1
      omega
    · intro hle
      dsimp only
      rw [max_eq_right (by omega : (0 : Int) ≤ loan.due_amount - loan.repaid_amount)] at h6
      omega

theorem getLoanById_map_at {ls : List Loan} (g : Loan → Loan)
    (hg_id : ∀ l, (g l).loan_id = l.loan_id)
    {id : Nat} {loan : Loan} (h : getLoanById ls id = some loan) :
    getLoanById (ls.map g) id = some (g loan) := by
  rw [getLoanById_map ls g id hg_id, h]
  rfl

theorem create_loan_loans (st : St) (l b : String) (p : Int) (r : ℚ) (now : Nat) :
    (create_loan st l b p r now).2.loans = st.loans ∨
      ∃ nl, (create_loan st l b p r now).2.loans = st.loans ++ [nl] := by
  simp only [create_loan]
  by_cases h1 : l = b
  · rw [if_pos h1]
    exact Or.inl rfl
  · rw [if_neg h1]
    by_cases h2 : p ≤ 0
    · rw [if_pos h2]
      exact Or.inl rfl
    · rw [if_neg h2]
      by_cases h3 : l ≠ "SYSTEM"
      · rw [if_pos h3]
        exact Or.inr ⟨_, rfl⟩
      · rw [if_neg h3]
        cases hl : getUser st l with
        | none => exact Or.inl rfl
        | some lu =>
            dsimp only
            by_cases h4 : lu.coins < p
            · rw [if_pos h4]
              exact Or.inl rfl
            · rw [if_neg h4]
              cases hb : getUser st b with
              | none => exact Or.inl rfl
              | some bu => exact Or.inr ⟨_, rfl⟩

theorem borrow_loans (cfg : Cfg) (st : St) (b : String) (amt : Option Int) (now : Nat) :
    (borrow_from_system cfg st b amt now).2.loans = st.loans ∨
      ∃ nl, (borrow_from_system cfg st b amt now).2.loans = st.loans ++ [nl] := by
  simp only [borrow_from_system]
  cases hb : getUser st b with
  | none => exact Or.inl rfl
  | some bu =>
      dsimp only
      by_cases h1 : (getActiveSystemLoan st b).isSome
      · rw [if_pos h1]
        exact Or.inl rfl
      · rw [if_neg h1]
        by_cases h2 : hasOverdueSystemLoan st b now = true
        · rw [if_pos h2]
          exact Or.inl rfl
        · rw [if_neg h2]
          by_cases h3 : pyCap bu.max_coins cfg.system_loan_ratio ≤ 0
          · rw [if_pos h3]
            exact Or.inl rfl
          · rw [if_neg h3]
            split
            · exact Or.inl rfl
            · rename_i amt2 heq
              by_cases h5 : (update_coins st b amt2).1 = true
              · rw [if_pos h5]
                dsimp only
                rw [(update_coins_loans st b amt2).1]
                exact Or.inr ⟨_, rfl⟩
              · rw [if_neg h5]
                exact Or.inl rfl

/-- C7: across every operation each stored loan's repaid_amount never
decreases, and a loan entering with repaid_amount ≤ due_amount leaves with
repaid_amount ≤ due_amount (each allocation is bounded by the loan's
remaining_amount); the loans table's primary-key uniqueness (no duplicate
loan_ids) is assumed for the three allocation walks. The four non-allocating
operations preserve repaid_amount exactly. -/
theorem repaid_monotone_and_bounded :
    (∀ st b l amt id loan, (st.loans.map (fun x => x.loan_id)).Nodup →
      getLoanById st.loans id = some loan →
      ∃ l2, getLoanById (repay_loan st b l amt).2.loans id = some l2 ∧
        loan.repaid_amount ≤ l2.repaid_amount ∧
        (loan.repaid_amount ≤ loan.due_amount → l2.repaid_amount ≤ l2.due_amount)) ∧
    (∀ st b id loan, (st.loans.map (fun x => x.loan_id)).Nodup →
      getLoanById st.loans id = some loan →
      ∃ l2, getLoanById (repay_all_loans st b).2.loans id = some l2 ∧
        loan.repaid_amount ≤ l2.repaid_amount ∧
        (loan.repaid_amount ≤ loan.due_amount → l2.repaid_amount ≤ l2.due_amount)) ∧
    (∀ st l b amt id loan, (st.loans.map (fun x => x.loan_id)).Nodup →
      getLoanById st.loans id = some loan →
      ∃ l2, getLoanById (force_collect st l b amt).2.loans id = some l2 ∧
        loan.repaid_amount ≤ l2.repaid_amount ∧
        (loan.repaid_amount ≤ loan.due_amount → l2.repaid_amount ≤ l2.due_amount)) ∧
    (∀ st lid uid now id loan, getLoanById st.loans id = some loan →
      ∃ l2, getLoanById (confirm_loan st lid uid now).2.loans id = some l2 ∧
        l2.repaid_amount = loan.repaid_amount ∧ l2.due_amount = loan.due_amount) ∧
    (∀ st lid now id loan, getLoanById st.loans id = some loan →
      ∃ l2, getLoanById (mark_overdue st lid now).loans id = some l2 ∧
        l2.repaid_amount = loan.repaid_amount ∧ l2.due_amount = loan.due_amount) ∧
    (∀ st l b p r now id loan, getLoanById st.loans id = some loan →
      ∃ l2, getLoanById (create_loan st l b p r now).2.loans id = some l2 ∧
        l2.repaid_amount = loan.repaid_amount ∧ l2.due_amount = loan.due_amount) ∧
    (∀ cfg st b amt now id loan, getLoanById st.loans id = some loan →
      ∃ l2, getLoanById (borrow_from_system cfg st b amt now).2.loans id = some l2 ∧
        l2.repaid_amount = loan.repaid_amount ∧ l2.due_amount = loan.due_amount) := by
  refine ⟨?_, ?_, ?_, ?_, ?_, ?_, ?_⟩
  · intro st b l amt id loan hnd h
    rcases repay_loan_loans st b l amt with h2 | ⟨f, h2⟩
    · exact ⟨loan, by rw [h2, h], le_refl _, fun hb => hb⟩
    · rw [h2]
      exact repaid_mono_applyUpdates settleRule settleRule_repaid f
        (repayCandidates st b l) st.loans hnd
        (fun c hc => (repayCandidates_mem st b l c hc).1) h
  · intro st b id loan hnd h
    rcases repay_all_loans_loans st b with h2 | ⟨f, h2⟩
    · exact ⟨loan, by rw [h2, h], le_refl _, fun hb => hb⟩
    · rw [h2]
      exact repaid_mono_applyUpdates settleKeepRule settleKeepRule_repaid f
        (repayAllCandidates st b) st.loans hnd
        (fun c hc => (repayAllCandidates_mem st b c hc).1) h
  · intro st l b amt id loan hnd h
    rcases force_collect_loans st l b amt with h2 | ⟨f, h2⟩
    · exact ⟨loan, by rw [h2, h], le_refl _, fun hb => hb⟩
    · rw [h2]
      exact repaid_mono_applyUpdates settleRule settleRule_repaid f
        (collectSorted st l b) st.loans hnd
        (fun c hc => (collectSorted_mem st l b c hc).1) h
  · intro st lid uid now id loan h
    rcases confirm_loan_loans st lid uid now with h2 | h2
    · exact ⟨loan, by rw [h2, h], rfl, rfl⟩
    · rw [h2]
      rw [getLoanById_map_at
        (fun l => if l.loan_id = lid then { l with status := "active", borrowed_at := now }
                  else l)
        (fun l2 => by by_cases h3 : l2.loan_id = lid <;> simp [h3]) h]
      refine ⟨_, rfl, ?_, ?_⟩ <;> by_cases h4 : loan.loan_id = lid <;> simp [h4]
  · intro st lid now id loan h
    simp only [mark_overdue]
    cases hl : getLoanById st.loans lid with
    | none => exact ⟨loan, h, rfl, rfl⟩
    | some loan0 =>
        dsimp only
        by_cases h1 : (loan0.is_overdue now && decide (loan0.status = "active")) = true
        · rw [if_pos h1]
          dsimp only
          unfold setLoan
          rw [getLoanById_map_at
            (fun l => if l.loan_id = lid
                      then { l with repaid_amount := loan0.repaid_amount, status := "overdue" }
                      else l)
            (fun l2 => by by_cases h3 : l2.loan_id = lid <;> simp [h3]) h]
          refine ⟨_, rfl, ?_, ?_⟩
          · by_cases h4 : loan.loan_id = lid
            · have hid : id = lid := by
                rw [← (getLoanById_mem h).2]
                exact h4
              rw [hid] at h
              rw [h] at hl
              injection hl with hl2
              simp [h4, ← hl2]
            · simp [h4]
          · by_cases h4 : loan.loan_id = lid <;> simp [h4]
        · rw [if_neg h1]
          exact ⟨loan, h, rfl, rfl⟩
  · intro st l b p r now id loan h
    rcases create_loan_loans st l b p r now with h2 | ⟨nl, h2⟩
    · exact ⟨loan, by rw [h2, h], rfl, rfl⟩
    · exact ⟨loan, by rw [h2]; exact getLoanById_append h, rfl, rfl⟩
  · intro cfg st b amt now id loan h
    rcases borrow_loans cfg st b amt now with h2 | ⟨nl, h2⟩
    · exact ⟨loan, by rw [h2, h], rfl, rfl⟩
    · exact ⟨loan, by rw [h2]; exact getLoanById_append h, rfl, rfl⟩

/-- Witness for C7: the monotonicity and the bound evaluated at a concrete
repayment against the stored peer loan. -/
theorem repaid_monotone_and_bounded_witness :
    (exStPeer.loans.map (fun x => x.loan_id)).Nodup ∧
    getLoanById exStPeer.loans 2 = some exPeerActive ∧
    (∃ l2, getLoanById (repay_loan exStPeer "alice" "bob" 100).2.loans 2 = some l2 ∧
      exPeerActive.repaid_amount ≤ l2.repaid_amount ∧
      (exPeerActive.repaid_amount ≤ exPeerActive.due_amount →
        l2.repaid_amount ≤ l2.due_amount)) :=
  ⟨by decide, by decide,
   repaid_monotone_and_bounded.1 exStPeer "alice" "bob" 100 2 exPeerActive
     (by decide) (by decide)⟩

/-! Helper lemmas for the conservation statement: row lookups through the
user-table updates, and the balance effect of the repay-all loop. -/

theorem findUser_mapUser_self (us : List UserRec) (uid : String) (f : UserRec → UserRec)
    (hf : ∀ u, (f u).user_id = u.user_id) :
    findUser (mapUser us uid f) uid = (findUser us uid).map f := by
  rw [findUser_mapUser us uid uid f hf]
  cases h : findUser us uid with
  | none => rfl
  | some u =>
      simp only [Option.map_some']
      rw [if_pos (findUser_some_id h)]

theorem findUser_mapUser_other (us : List UserRec) (uid v : String) (f : UserRec → UserRec)
    (hf : ∀ u, (f u).user_id = u.user_id) (hne : v ≠ uid) :
    findUser (mapUser us uid f) v = findUser us v := by
  rw [findUser_mapUser us uid v f hf]
  cases h : findUser us v with
  | none => rfl
  | some u =>
      simp only [Option.map_some']
      have h2 : ¬ u.user_id = uid := by
        rw [findUser_some_id h]
        exact hne
      rw [if_neg h2]

theorem raiseMax_coins (us : List UserRec) (uid v : String) :
    (findUser (sqlRaiseMax us uid) v).map (fun u => u.coins)
      = (findUser us v).map (fun u => u.coins) := by
  unfold sqlRaiseMax
  rw [findUser_mapUser us uid v
    (fun u => if u.max_coins < u.coins then { u with max_coins := u.coins } else u)
    (fun u => by by_cases h : u.max_coins < u.coins <;> simp [h])]
  cases h : findUser us v with
  | none => rfl
  | some u =>
      simp only [Option.map_some']
      by_cases h2 : u.user_id = uid
      · rw [if_pos h2]
        by_cases h3 : u.max_coins < u.coins <;> simp [h3]
      · rw [if_neg h2]

theorem sqlCredit_coins_self (us : List UserRec) (uid : String) (amt : Int) :
    (findUser (sqlCredit us uid amt) uid).map (fun u => u.coins)
      = ((findUser us uid).map (fun u => u.coins)).map (fun c => c + amt) := by
  unfold sqlCredit
  rw [findUser_mapUser_self us uid (fun u => { u with coins := u.coins + amt })
    (fun u => rfl)]
  cases findUser us uid <;> rfl

theorem appliedTo_cons (q : Loan × Int) (ps : List (Loan × Int)) (v : String) :
    appliedTo (q :: ps) v = (if q.1.lender_id = v then q.2 else 0) + appliedTo ps v := by
  by_cases h : q.1.lender_id = v <;> simp [appliedTo, List.filter_cons, h]

theorem repayAllStep_coins (st : St) (q : Loan × Int) (v : String) (hq : 0 ≤ q.2) :
    (findUser (repayAllStep st q).users v).map (fun u => u.coins)
      = ((findUser st.users v).map (fun u => u.coins)).map
          (fun c => c + (if q.1.lender_id = v ∧ v ≠ "SYSTEM" then q.2 else 0)) := by
  simp only [repayAllStep]
  by_cases h0 : q.2 ≤ 0
  · rw [if_pos h0]
    have hz : q.2 = 0 := le_antisymm h0 hq
    cases findUser st.users v with
    | none => rfl
    | some u =>
        simp only [Option.map_some']
        by_cases hc : q.1.lender_id = v ∧ v ≠ "SYSTEM"
        · rw [if_pos hc, hz, add_zero]
        · rw [if_neg hc, add_zero]
  · rw [if_neg h0]
    by_cases hs : q.1.lender_id = "SYSTEM"
    · rw [if_pos hs]
      dsimp only
      have hc : ¬ (q.1.lender_id = v ∧ v ≠ "SYSTEM") := by
        intro hcon
        refine hcon.2 ?_
        rw [← hcon.1]
        exact hs
      cases findUser st.users v with
      | none => rfl
      | some u =>
          simp only [Option.map_some']
          rw [if_neg hc, add_zero]
    · rw [if_neg hs]
      dsimp only
      by_cases hv : q.1.lender_id = v
      · have hvs : v ≠ "SYSTEM" := by
          rw [← hv]
          exact hs
        rw [hv]
        rw [raiseMax_coins]
        rw [sqlCredit_coins_self]
        rw [if_pos (⟨rfl, hvs⟩ : v = v ∧ v ≠ "SYSTEM")]
      · rw [raiseMax_coins]
        unfold sqlCredit
        rw [findUser_mapUser_other st.users q.1.lender_id v
          (fun u => { u with coins := u.coins + q.2 }) (fun u => rfl)
          (fun he => hv he.symm)]
        have hc : ¬ (q.1.lender_id = v ∧ v ≠ "SYSTEM") := fun hcon => hv hcon.1
        cases findUser st.users v with
        | none => rfl
        | some u =>
            simp only [Option.map_some']
            rw [if_neg hc, add_zero]

theorem repayAll_fold_coins (ps : List (Loan × Int)) (st : St) (v : String)
    (hnn : ∀ q ∈ ps, 0 ≤ q.2) :
    (findUser (ps.foldl repayAllStep st).users v).map (fun u => u.coins)
      = ((findUser st.users v).map (fun u => u.coins)).map
          (fun c => c + (if v = "SYSTEM" then 0 else appliedTo ps v)) := by
  induction ps generalizing st with
  | nil =>
      simp only [List.foldl_nil]
      cases findUser st.users v with
      | none => rfl
      | some u =>
          simp only [Option.map_some']
          by_cases hv : v = "SYSTEM"
          · rw [if_pos hv, add_zero]
          · rw [if_neg hv]
            have h0 : appliedTo ([] : List (Loan × Int)) v = 0 := rfl
            rw [h0, add_zero]
  | cons q rest ih =>
      simp only [List.foldl_cons]
      rw [ih (repayAllStep st q) (fun p hp => hnn p (List.mem_cons_of_mem q hp))]
      rw [repayAllStep_coins st q v (hnn q (List.mem_cons_self q rest))]
      rw [Option.map_map]
      cases hfu : findUser st.users v with
      | none => rfl
      | some u =>
          simp only [Option.map_some', Function.comp_apply]
          congr 1
          rw [appliedTo_cons]
          by_cases hv : v = "SYSTEM"
          · have hc : ¬ (q.1.lender_id = v ∧ v ≠ "SYSTEM") := fun hcon => hcon.2 hv
            rw [if_pos hv, if_pos hv, if_neg hc]
            omega
          · rw [if_neg hv, if_neg hv]
            by_cases hl : q.1.lender_id = v
            · rw [if_pos (⟨hl, hv⟩ : q.1.lender_id = v ∧ v ≠ "SYSTEM"), if_pos hl]
              omega
            · rw [if_neg (fun hcon => hl (And.left hcon) :
                  ¬ (q.1.lender_id = v ∧ v ≠ "SYSTEM")), if_neg hl]
              omega

/-- C1: conservation of the moved units. For a successful single-counterparty
repayment the borrower's balance drops by exactly the total applied to the
lender's loans; a peer lender's row is credited by exactly that total and with
the SYSTEM lender no row other than the borrower's changes. For a successful
repay-all the borrower drops by the whole applied total and every other
account gains exactly the portion applied to its own loans, the SYSTEM
pseudo-lender gaining nothing. For a successful collection the borrower drops
by and the lender gains exactly the collected total (the lender row's balance
is assumed non-negative, as every reachable balance is, so the credit clamp is
inert); a collection for the SYSTEM sentinel can only succeed if a SYSTEM
account row exists. Lender and borrower are distinct accounts. -/
theorem loan_conservation (st : St) (borrower lender : String) (amount : Int)
    (oamt : Option Int) (hne : lender ≠ borrower)
    (hlc : ∀ u, getUser st lender = some u → 0 ≤ u.coins) :
    ((repay_loan st borrower lender amount).1 = true →
      coinsOf (repay_loan st borrower lender amount).2 borrower
          = coinsOf st borrower
            - allocTotal (allocate amount (repayCandidates st borrower lender)) ∧
      (lender ≠ "SYSTEM" →
        ((getUser (repay_loan st borrower lender amount).2 lender).map (fun u => u.coins))
          = ((getUser st lender).map (fun u => u.coins)).map (fun c =>
              c + allocTotal (allocate amount (repayCandidates st borrower lender)))) ∧
      (lender = "SYSTEM" → ∀ v, v ≠ borrower →
        getUser (repay_loan st borrower lender amount).2 v = getUser st v)) ∧
    ((repay_all_loans st borrower).1 = true →
      coinsOf (repay_all_loans st borrower).2 borrower
          = coinsOf st borrower
            - allocTotal (allocate (coinsOf st borrower) (repayAllCandidates st borrower)) ∧
      (∀ v, v ≠ borrower →
        ((getUser (repay_all_loans st borrower).2 v).map (fun u => u.coins))
          = ((getUser st v).map (fun u => u.coins)).map (fun c =>
              c + (if v = "SYSTEM" then 0
                   else appliedTo (allocate (coinsOf st borrower)
                          (repayAllCandidates st borrower)) v)))) ∧
    ((force_collect st lender borrower oamt).1 = true →
      coinsOf (force_collect st lender borrower oamt).2 borrower
          = coinsOf st borrower - allocTotal (collectPlan st lender borrower oamt) ∧
      ((getUser (force_collect st lender borrower oamt).2 lender).map (fun u => u.coins))
        = ((getUser st lender).map (fun u => u.coins)).map (fun c =>
            c + allocTotal (collectPlan st lender borrower oamt))) ∧
    (getUser st "SYSTEM" = none → ∀ a2,
      (force_collect st "SYSTEM" borrower a2).1 = false) := by
  refine ⟨?_, ?_, ?_, ?_⟩
  · intro hsucc
    simp only [repay_loan] at hsucc ⊢
    by_cases h1 : amount ≤ 0
    · rw [if_pos h1] at hsucc
      simp at hsucc
    · rw [if_neg h1] at hsucc ⊢
      cases hb : getUser st borrower with
      | none =>
          rw [hb] at hsucc
          simp at hsucc
      | some bu =>
          rw [hb] at hsucc
          dsimp only at hsucc ⊢
          by_cases h2 : bu.coins < amount
          · rw [if_pos h2] at hsucc
            simp at hsucc
          · rw [if_neg h2] at hsucc ⊢
            by_cases h3 : (repayCandidates st borrower lender).isEmpty
            · rw [if_pos h3] at hsucc
              simp at hsucc
            · rw [if_neg h3] at hsucc ⊢
              have hb2 : findUser st.users borrower = some bu := hb
              have hTnn : 0 ≤ allocTotal
                  (allocate amount (repayCandidates st borrower lender)) :=
                allocate_total_nonneg _ _
              have hTle : allocTotal (allocate amount (repayCandidates st borrower lender))
                  ≤ amount := allocate_total_le _ _ (by omega)
              generalize hT : allocTotal (allocate amount (repayCandidates st borrower lender))
                = T at hTnn hTle ⊢
              by_cases hls : lender = "SYSTEM"
              · rw [if_pos hls]
                dsimp only
                refine ⟨?_, ?_, ?_⟩
                · simp only [coinsOf, getUser]
                  unfold sqlDebitClamp
                  rw [findUser_mapUser_self st.users borrower
                    (fun u => { u with coins := max 0 (u.coins - T) }) (fun u => rfl)]
                  rw [hb2]
                  show max 0 (bu.coins - T) = bu.coins - T
                  omega
                · intro hlsys
                  exact absurd hls hlsys
                · intro hlsys v hv
                  simp only [getUser]
                  unfold sqlDebitClamp
                  rw [findUser_mapUser_other st.users borrower v
                    (fun u => { u with coins := max 0 (u.coins - T) }) (fun u => rfl) hv]
              · rw [if_neg hls]
                dsimp only
                refine ⟨?_, ?_, ?_⟩
                · simp only [coinsOf, getUser]
                  unfold sqlRaiseMax
                  rw [findUser_mapUser_other _ lender borrower
                    (fun u => if u.max_coins < u.coins then { u with max_coins := u.coins }
                              else u)
                    (fun u => by by_cases h : u.max_coins < u.coins <;> simp [h])
                    (fun h => hne h.symm)]
                  unfold sqlCredit
                  rw [findUser_mapUser_other _ lender borrower
                    (fun u => { u with coins := u.coins + T }) (fun u => rfl)
                    (fun h => hne h.symm)]
                  unfold sqlDebitClamp
                  rw [findUser_mapUser_self st.users borrower
                    (fun u => { u with coins := max 0 (u.coins - T) }) (fun u => rfl)]
                  rw [hb2]
                  show max 0 (bu.coins - T) = bu.coins - T
                  omega
                · intro hlsys
                  simp only [getUser]
                  rw [raiseMax_coins]
                  rw [sqlCredit_coins_self]
                  unfold sqlDebitClamp
                  rw [findUser_mapUser_other st.users borrower lender
                    (fun u => { u with coins := max 0 (u.coins - T) }) (fun u => rfl) hne]
                · intro hlsys
                  exact absurd hlsys hls
  · intro hsucc
    simp only [repay_all_loans] at hsucc ⊢
    cases hb : getUser st borrower with
    | none =>
        rw [hb] at hsucc
        simp at hsucc
    | some bu =>
        rw [hb] at hsucc
        dsimp only at hsucc ⊢
        have hco : coinsOf st borrower = bu.coins := by
          simp only [coinsOf]
          rw [hb]
          rfl
        rw [hco]
        by_cases h1 : bu.coins ≤ 0
        · rw [if_pos h1] at hsucc
          simp at hsucc
        · rw [if_neg h1] at hsucc ⊢
          by_cases h2 : (st.loans.filter (repayAllPred borrower)).isEmpty
          · rw [if_pos h2] at hsucc ⊢
            dsimp only
            have hfil : st.loans.filter (repayAllPred borrower) = [] := by
              rwa [List.isEmpty_iff] at h2
            have hcand : repayAllCandidates st borrower = [] := by
              unfold repayAllCandidates
              rw [hfil]
              rfl
            rw [hcand]
            have ha : allocate bu.coins ([] : List Loan) = [] := rfl
            refine ⟨by rw [ha, allocTotal_nil, hco]; omega, ?_⟩
            intro v hv
            rw [ha]
            have happ : appliedTo ([] : List (Loan × Int)) v = 0 := rfl
            rw [happ]
            cases getUser st v with
            | none => rfl
            | some u => simp
          · rw [if_neg h2] at hsucc ⊢
            dsimp only
            have hnn : ∀ q ∈ allocate bu.coins (repayAllCandidates st borrower), 0 ≤ q.2 :=
              fun q hq => (allocate_mem_bounds _ _ q hq).1
            generalize hps : allocate bu.coins (repayAllCandidates st borrower) = ps
              at hnn ⊢
            have hfold := repayAll_fold_coins ps st borrower hnn
            rw [show findUser st.users borrower = some bu from hb] at hfold
            refine ⟨?_, ?_⟩
            · simp only [coinsOf, getUser]
              unfold sqlSetCoins
              rw [findUser_mapUser_self (ps.foldl repayAllStep st).users borrower
                (fun u => { u with coins := bu.coins - allocTotal ps }) (fun u => rfl)]
              cases hf1 : findUser (ps.foldl repayAllStep st).users borrower with
              | none =>
                  rw [hf1] at hfold
                  simp at hfold
              | some u1 => rfl
            · intro v hv
              simp only [getUser]
              unfold sqlSetCoins
              rw [findUser_mapUser_other (ps.foldl repayAllStep st).users borrower v
                (fun u => { u with coins := bu.coins - allocTotal ps }) (fun u => rfl) hv]
              exact repayAll_fold_coins ps st v hnn
  · intro hsucc
    simp only [force_collect] at hsucc ⊢
    by_cases h1 : (get_active_loans_between_users st lender borrower).isEmpty
    · rw [if_pos h1] at hsucc
      simp at hsucc
    · rw [if_neg h1] at hsucc ⊢
      split at hsucc
      · simp at hsucc
      · rename_i cA heqCA
        cases hb : getUser st borrower with
        | none =>
            rw [hb] at hsucc
            simp at hsucc
        | some bu =>
            rw [hb] at hsucc
            dsimp only at hsucc ⊢
            by_cases h2 : min cA bu.coins ≤ 0
            · rw [if_pos h2] at hsucc
              simp at hsucc
            · rw [if_neg h2] at hsucc ⊢
              have hco : coinsOf st borrower = bu.coins := by
                simp only [coinsOf]
                rw [hb]
                rfl
              have hplan : collectPlan st lender borrower oamt
                  = allocate (min cA bu.coins) (collectSorted st lender borrower) := by
                unfold collectPlan
                rw [hco]
                cases oamt with
                | none =>
                    dsimp only at heqCA ⊢
                    injection heqCA with h3
                    rw [h3]
                | some a =>
                    dsimp only at heqCA ⊢
                    by_cases ha : a ≤ 0
                    · rw [if_pos ha] at heqCA
                      exact absurd heqCA (by simp)
                    · rw [if_neg ha] at heqCA
                      injection heqCA with h3
                      rw [h3]
              rw [hplan, hco]
              have hTnn : 0 ≤ allocTotal
                  (allocate (min cA bu.coins) (collectSorted st lender borrower)) :=
                allocate_total_nonneg _ _
              have hTle : allocTotal
                  (allocate (min cA bu.coins) (collectSorted st lender borrower))
                  ≤ min cA bu.coins := allocate_total_le _ _ (by omega)
              have hminb : min cA bu.coins ≤ bu.coins := min_le_right _ _
              generalize hps : allocate (min cA bu.coins) (collectSorted st lender borrower)
                = ps at hsucc hTnn hTle ⊢
              generalize hls1 : applyUpdates settleRule st.loans ps = ls1 at hsucc ⊢
              have hbu1 : getUser { users := st.users, loans := ls1, nextId := st.nextId }
                  borrower = some bu := hb
              rw [update_coins_found _ _ _ hbu1] at hsucc ⊢
              dsimp only at hsucc ⊢
              generalize hus2 : mapUser st.users borrower
                  (fun u => { u with coins := max 0 (u.coins + -allocTotal ps) }) = us2
                at hsucc ⊢
              cases hcl : getUser { users := us2, loans := ls1, nextId := st.nextId }
                  lender with
              | none =>
                  rw [update_coins_missing _ _ _ hcl] at hsucc
                  dsimp only at hsucc
                  simp at hsucc
              | some lu =>
                  rw [update_coins_found _ _ _ hcl] at hsucc ⊢
                  dsimp only at hsucc ⊢
                  have h4 : findUser us2 lender = some lu := hcl
                  rw [← hus2] at h4
                  have hlu : findUser st.users lender = some lu := by
                    rwa [findUser_mapUser_other st.users borrower lender
                      (fun u => { u with coins := max 0 (u.coins + -allocTotal ps) })
                      (fun u => rfl) hne] at h4
                  have hlc2 : 0 ≤ lu.coins := hlc lu hlu
                  refine ⟨?_, ?_⟩
                  · simp only [coinsOf, getUser]
                    rw [findUser_mapUser_other us2 lender borrower
                      (fun u => { u with coins := max 0 (u.coins + allocTotal ps) })
                      (fun u => rfl) (fun h => hne h.symm)]
                    rw [← hus2]
                    rw [findUser_mapUser_self st.users borrower
                      (fun u => { u with coins := max 0 (u.coins + -allocTotal ps) })
                      (fun u => rfl)]
                    rw [show findUser st.users borrower = some bu from hb]
                    show max 0 (bu.coins + -allocTotal ps) = bu.coins - allocTotal ps
                    omega
                  · simp only [getUser]
                    rw [findUser_mapUser_self us2 lender
                      (fun u => { u with coins := max 0 (u.coins + allocTotal ps) })
                      (fun u => rfl)]
                    rw [show findUser us2 lender = some lu from hcl]
                    rw [hlu]
                    show (some (max 0 (lu.coins + allocTotal ps)) : Option Int)
                        = some (lu.coins + allocTotal ps)
                    exact congrArg some (max_eq_right (by omega))
  · intro hsys a2
    simp only [force_collect]
    by_cases h1 : (get_active_loans_between_users st "SYSTEM" borrower).isEmpty
    · rw [if_pos h1]
    · rw [if_neg h1]
      split
      · rfl
      · rename_i cA heqCA
        cases hb : getUser st borrower with
        | none => rfl
        | some bu =>
            dsimp only
            by_cases h2 : min cA bu.coins ≤ 0
            · rw [if_pos h2]
            · rw [if_neg h2]
              have hbneq : "SYSTEM" ≠ borrower := by
                intro hcon
                rw [hcon] at hsys
                rw [hb] at hsys
                exact Option.noConfusion hsys
              generalize hps : allocate (min cA bu.coins)
                (collectSorted st "SYSTEM" borrower) = ps
              generalize hls1 : applyUpdates settleRule st.loans ps = ls1
              have hbu1 : getUser { users := st.users, loans := ls1, nextId := st.nextId }
                  borrower = some bu := hb
              rw [update_coins_found _ _ _ hbu1]
              dsimp only
              generalize hus2 : mapUser st.users borrower
                  (fun u => { u with coins := max 0 (u.coins + -allocTotal ps) }) = us2
              have hsys2 : getUser { users := us2, loans := ls1, nextId := st.nextId }
                  "SYSTEM" = none := by
                show findUser us2 "SYSTEM" = none
                rw [← hus2]
                rw [findUser_mapUser_other st.users borrower "SYSTEM"
                  (fun u => { u with coins := max 0 (u.coins + -allocTotal ps) })
                  (fun u => rfl) hbneq]
                exact hsys
              rw [update_coins_missing _ _ _ hsys2]

/-- Witness for C1: the conservation statement applied at the concrete state
with the active peer loan from bob to alice, single-counterparty repayment
conjunct. -/
theorem loan_conservation_witness :
    (("bob" : String) ≠ "alice") ∧
    (repay_loan exStPeer "alice" "bob" 100).1 = true ∧
    ((repay_loan exStPeer "alice" "bob" 100).1 = true →
      coinsOf (repay_loan exStPeer "alice" "bob" 100).2 "alice"
          = coinsOf exStPeer "alice"
            - allocTotal (allocate 100 (repayCandidates exStPeer "alice" "bob")) ∧
      (("bob" : String) ≠ "SYSTEM" →
        ((getUser (repay_loan exStPeer "alice" "bob" 100).2 "bob").map (fun u => u.coins))
          = ((getUser exStPeer "bob").map (fun u => u.coins)).map (fun c =>
              c + allocTotal (allocate 100 (repayCandidates exStPeer "alice" "bob")))) ∧
      (("bob" : String) = "SYSTEM" → ∀ v, v ≠ "alice" →
        getUser (repay_loan exStPeer "alice" "bob" 100).2 v = getUser exStPeer v)) :=
  ⟨by decide, by decide,
   (loan_conservation exStPeer "alice" "bob" 100 (some 50) (by decide)
     (fun u hu => by
       have h2 : some exBob = some u := hu
       injection h2 with h3
       rw [← h3]
       decide)).1⟩

/-! Helper lemmas for the one-outstanding-system-loan invariant: frame facts
(nextId and clock), the status range of the two settlement rules, and
preservation of the loan-table invariant by each operation. -/

theorem InvLoan_of_eq (st st2 : St) (now now2 : Nat) (hl : st2.loans = st.loans)
    (hn : st2.nextId = st.nextId) (ht : now ≤ now2)
    (hinv : InvLoan (st, now)) : InvLoan (st2, now2) := by
  unfold InvLoan at hinv ⊢
  dsimp only at hinv ⊢
  rw [hl, hn]
  obtain ⟨I1, I2, I3, I4, I5⟩ := hinv
  refine ⟨I1, I2, I3, ?_, I5⟩
  intro l hm hs
  obtain ⟨hsys, d, hd, hlt⟩ := I4 l hm hs
  exact ⟨hsys, d, hd, lt_of_lt_of_le hlt ht⟩

theorem repay_loan_nextId (st : St) (b l : String) (amt : Int) :
    (repay_loan st b l amt).2.nextId = st.nextId := by
  simp only [repay_loan]
  by_cases h1 : amt ≤ 0
  · rw [if_pos h1]
  · rw [if_neg h1]
    cases hb : getUser st b with
    | none => rfl
    | some bu =>
        dsimp only
        by_cases h2 : bu.coins < amt
        · rw [if_pos h2]
        · rw [if_neg h2]
          by_cases h3 : (repayCandidates st b l).isEmpty
          · rw [if_pos h3]
          · rw [if_neg h3]

theorem repayAllStep_nextId (st : St) (q : Loan × Int) :
    (repayAllStep st q).nextId = st.nextId := by
  simp only [repayAllStep]
  by_cases h0 : q.2 ≤ 0
  · rw [if_pos h0]
  · rw [if_neg h0]
    by_cases hs : q.1.lender_id = "SYSTEM"
    · rw [if_pos hs]
    · rw [if_neg hs]

theorem repayAll_fold_nextId (ps : List (Loan × Int)) (st : St) :
    (ps.foldl repayAllStep st).nextId = st.nextId := by
  induction ps generalizing st with
  | nil => rfl
  | cons q rest ih =>
      rw [List.foldl_cons, ih, repayAllStep_nextId]

theorem repay_all_loans_nextId (st : St) (b : String) :
    (repay_all_loans st b).2.nextId = st.nextId := by
  simp only [repay_all_loans]
  cases hb : getUser st b with
  | none => rfl
  | some bu =>
      dsimp only
      by_cases h1 : bu.coins ≤ 0
      · rw [if_pos h1]
      · rw [if_neg h1]
        by_cases h2 : (st.loans.filter (repayAllPred b)).isEmpty
        · rw [if_pos h2]
        · rw [if_neg h2]
          dsimp only
          exact repayAll_fold_nextId _ _

theorem force_collect_nextId (st : St) (l b : String) (amt : Option Int) :
    (force_collect st l b amt).2.nextId = st.nextId := by
  simp only [force_collect]
  by_cases h1 : (get_active_loans_between_users st l b).isEmpty
  · rw [if_pos h1]
  · rw [if_neg h1]
    split
    · rfl
    · rename_i cA heqCA
      cases hb : getUser st b with
      | none => rfl
      | some bu =>
          dsimp only
          by_cases h2 : min cA bu.coins ≤ 0
          · rw [if_pos h2]
          · rw [if_neg h2]
            generalize hps : allocate (min cA bu.coins) (collectSorted st l b) = ps
            generalize hls : applyUpdates settleRule st.loans ps = ls1
            cases hdeb : update_coins { users := st.users, loans := ls1, nextId := st.nextId }
                b (-allocTotal ps) with
            | mk ok2 st2 =>
                have hn2 : st2.nextId = st.nextId := by
                  have h5 := (update_coins_loans
                    { users := st.users, loans := ls1, nextId := st.nextId } b
                    (-allocTotal ps)).2
                  rw [hdeb] at h5
                  exact h5
                cases ok2 with
                | false => exact hn2
                | true =>
                    dsimp only
                    cases hcred : update_coins st2 l (allocTotal ps) with
                    | mk ok3 st3 =>
                        have hn3 : st3.nextId = st2.nextId := by
                          have h6 := (update_coins_loans st2 l (allocTotal ps)).2
                          rw [hcred] at h6
                          exact h6
                        cases ok3 with
                        | false =>
                            dsimp only
                            have h7 := (update_coins_loans st3 b (allocTotal ps)).2
                            rw [h7, hn3, hn2]
                        | true => exact hn3.trans hn2

theorem confirm_loan_nextId (st : St) (lid : Nat) (uid : String) (now : Nat) :
    (confirm_loan st lid uid now).2.nextId = st.nextId := by
  simp only [confirm_loan]
  cases hl : getLoanById st.loans lid with
  | none => rfl
  | some loan =>
      dsimp only
      by_cases h1 : loan.borrower_id ≠ uid
      · rw [if_pos h1]
      · rw [if_neg h1]
        by_cases h2 : loan.status ≠ "pending"
        · rw [if_pos h2]
        · rw [if_neg h2]
          cases hlu : getUser st loan.lender_id with
          | none => rfl
          | some lu =>
              dsimp only
              by_cases h3 : lu.coins < loan.principal
              · rw [if_pos h3]
              · rw [if_neg h3]

theorem settleRule_status (l : Loan) (x : Int) (rs : Int × String)
    (h : settleRule l x = some rs) :
    rs.2 = "paid" ∨ rs.2 = "active" ∨ rs.2 = l.status := by
  unfold settleRule at h
  injection h with h2
  by_cases hc : l.due_amount ≤ l.repaid_amount + x
  · refine Or.inl ?_
    rw [← h2]
    dsimp only
    rw [if_pos hc]
  · refine Or.inr (Or.inl ?_)
    rw [← h2]
    dsimp only
    rw [if_neg hc]

theorem settleKeepRule_status (l : Loan) (x : Int) (rs : Int × String)
    (h : settleKeepRule l x = some rs) :
    rs.2 = "paid" ∨ rs.2 = "active" ∨ rs.2 = l.status := by
  unfold settleKeepRule at h
  by_cases hx : x ≤ 0
  · rw [if_pos hx] at h
    simp at h
  · rw [if_neg hx] at h
    injection h with h2
    by_cases hc : l.due_amount ≤ l.repaid_amount + x
    · refine Or.inl ?_
      rw [← h2]
      dsimp only
      rw [if_pos hc]
    · refine Or.inr (Or.inr ?_)
      rw [← h2]
      dsimp only
      rw [if_neg hc]

theorem InvLoan_alloc (st st2 : St) (now : Nat)
    (sf : Loan → Int → Option (Int × String))
    (hstat : ∀ l x rs, sf l x = some rs → rs.2 = "paid" ∨ rs.2 = "active" ∨ rs.2 = l.status)
    (f : Int) (cands : List Loan)
    (hcand : ∀ c ∈ cands, c ∈ st.loans ∧ (c.status = "active" ∨ c.status = "overdue"))
    (hl : st2.loans = applyUpdates sf st.loans (allocate f cands))
    (hn : st2.nextId = st.nextId)
    (hinv : InvLoan (st, now)) : InvLoan (st2, now) := by
  unfold InvLoan at hinv ⊢
  dsimp only at hinv ⊢
  obtain ⟨I1, I2, I3, I4, I5⟩ := hinv
  rw [hl, hn, applyUpdates_eq_map]
  generalize hps : allocate f cands = ps
  have hfields := fun l => applyMany_fields sf ps l
  have hstatus : ∀ l ∈ st.loans, (applyMany sf ps l).status = l.status ∨
      ((applyMany sf ps l).status = "paid" ∨ (applyMany sf ps l).status = "active") ∧
        (l.status = "active" ∨ l.status = "overdue") := by
    intro l hm
    rcases applyMany_shape sf ps l with hu | ⟨q, hq, hid, rs, hrs, heq⟩
    · rw [hu]
      exact Or.inl rfl
    · rw [← hps] at hq
      have hb := allocate_mem_bounds f cands q hq
      have hq1 : q.1 ∈ st.loans := (hcand q.1 hb.2.2).1
      have hqs : q.1.status = "active" ∨ q.1.status = "overdue" := (hcand q.1 hb.2.2).2
      have hqeq : q.1 = l := mem_keyed_eq I1 hq1 hm hid
      rcases hstat q.1 q.2 rs hrs with hp | hp | hp
      · exact Or.inr ⟨Or.inl (by rw [heq]; exact hp), hqeq ▸ hqs⟩
      · exact Or.inr ⟨Or.inr (by rw [heq]; exact hp), hqeq ▸ hqs⟩
      · refine Or.inl ?_
        rw [heq]
        show rs.2 = l.status
        rw [hp, hqeq]
  have hout : ∀ b, ∀ l ∈ st.loans, sysOutstanding b (applyMany sf ps l) = true →
      sysOutstanding b l = true := by
    intro b l hm ho
    have hf := hfields l
    unfold sysOutstanding Loan.is_system_loan at ho ⊢
    rw [hf.2.1, hf.2.2.1] at ho
    simp only [Bool.and_eq_true, Bool.or_eq_true, decide_eq_true_eq] at ho ⊢
    refine ⟨ho.1, ?_⟩
    rcases hstatus l hm with hs | hs
    · rw [← hs]
      exact ho.2
    · exact hs.2
  refine ⟨?_, ?_, ?_, ?_, ?_⟩
  · have hids : (st.loans.map (applyMany sf ps)).map (fun l => l.loan_id)
        = st.loans.map (fun l => l.loan_id) := by
      rw [List.map_map]
      exact List.map_congr_left (fun l _ => (hfields l).1)
    rw [hids]
    exact I1
  · intro l2 hm2
    rcases List.mem_map.mp hm2 with ⟨l, hm, heq⟩
    rw [← heq, (hfields l).1]
    exact I2 l hm
  · intro l2 hm2 hp
    rcases List.mem_map.mp hm2 with ⟨l, hm, heq⟩
    rw [← heq] at hp ⊢
    rw [(hfields l).2.1]
    rcases hstatus l hm with hs | hs
    · rw [hs] at hp
      exact I3 l hm hp
    · rcases hs.1 with h9 | h9
      · rw [h9] at hp
        exact absurd hp (by decide)
      · rw [h9] at hp
        exact absurd hp (by decide)
  · intro l2 hm2 ho
    rcases List.mem_map.mp hm2 with ⟨l, hm, heq⟩
    rw [← heq] at ho ⊢
    rw [(hfields l).2.1, (hfields l).2.2.2.2.1]
    rcases hstatus l hm with hs | hs
    · rw [hs] at ho
      exact I4 l hm ho
    · rcases hs.1 with h9 | h9
      · rw [h9] at ho
        exact absurd ho (by decide)
      · rw [h9] at ho
        exact absurd ho (by decide)
  · intro b l1m hm1 l2m hm2 ho1 ho2
    rcases List.mem_map.mp hm1 with ⟨l1, hma, heqa⟩
    rcases List.mem_map.mp hm2 with ⟨l2, hmb, heqb⟩
    rw [← heqa] at ho1 ⊢
    rw [← heqb] at ho2 ⊢
    have e := I5 b l1 hma l2 hmb (hout b l1 hma ho1) (hout b l2 hmb ho2)
    rw [e]

theorem inv_repay (st : St) (now : Nat) (b l : String) (amt : Int)
    (hinv : InvLoan (st, now)) : InvLoan ((repay_loan st b l amt).2, now) := by
  rcases repay_loan_loans st b l amt with h2 | ⟨f, h2⟩
  · exact InvLoan_of_eq st _ now now h2 (repay_loan_nextId st b l amt) (le_refl now) hinv
  · exact InvLoan_alloc st _ now settleRule settleRule_status f (repayCandidates st b l)
      (repayCandidates_mem st b l) h2 (repay_loan_nextId st b l amt) hinv

theorem inv_repayAll (st : St) (now : Nat) (b : String)
    (hinv : InvLoan (st, now)) : InvLoan ((repay_all_loans st b).2, now) := by
  rcases repay_all_loans_loans st b with h2 | ⟨f, h2⟩
  · exact InvLoan_of_eq st _ now now h2 (repay_all_loans_nextId st b) (le_refl now) hinv
  · exact InvLoan_alloc st _ now settleKeepRule settleKeepRule_status f
      (repayAllCandidates st b) (repayAllCandidates_mem st b) h2
      (repay_all_loans_nextId st b) hinv

theorem inv_collect (st : St) (now : Nat) (l b : String) (amt : Option Int)
    (hinv : InvLoan (st, now)) : InvLoan ((force_collect st l b amt).2, now) := by
  rcases force_collect_loans st l b amt with h2 | ⟨f, h2⟩
  · exact InvLoan_of_eq st _ now now h2 (force_collect_nextId st l b amt) (le_refl now) hinv
  · exact InvLoan_alloc st _ now settleRule settleRule_status f (collectSorted st l b)
      (fun c hc => ⟨(collectSorted_mem st l b c hc).1,
        Or.inl (collectSorted_mem st l b c hc).2⟩)
      h2 (force_collect_nextId st l b amt) hinv

theorem inv_create (st : St) (now : Nat) (lender b : String) (p : Int) (r : ℚ)
    (hsys : lender ≠ "SYSTEM") (hinv : InvLoan (st, now)) :
    InvLoan ((create_loan st lender b p r now).2, now) := by
  simp only [create_loan]
  by_cases h1 : lender = b
  · rw [if_pos h1]
    exact hinv
  · rw [if_neg h1]
    by_cases h2 : p ≤ 0
    · rw [if_pos h2]
      exact hinv
    · rw [if_neg h2]
      rw [if_pos hsys, if_pos hsys]
      dsimp only
      unfold InvLoan at hinv ⊢
      dsimp only at hinv ⊢
      obtain ⟨I1, I2, I3, I4, I5⟩ := hinv
      refine ⟨?_, ?_, ?_, ?_, ?_⟩
      · rw [List.map_append]
        refine List.Nodup.append I1 (List.nodup_singleton _) ?_
        intro a ha hb
        simp at hb
        rcases List.mem_map.mp ha with ⟨l0, hm0, hid0⟩
        have h5 := I2 l0 hm0
        rw [hid0, hb] at h5
        exact lt_irrefl _ h5
      · intro l2 hm2
        rcases List.mem_append.mp hm2 with hm | hm
        · exact Nat.lt_trans (I2 l2 hm) (Nat.lt_succ_self _)
        · rw [List.mem_singleton.mp hm]
          exact Nat.lt_succ_self _
      · intro l2 hm2 hp
        rcases List.mem_append.mp hm2 with hm | hm
        · exact I3 l2 hm hp
        · rw [List.mem_singleton.mp hm]
          exact hsys
      · intro l2 hm2 ho
        rcases List.mem_append.mp hm2 with hm | hm
        · exact I4 l2 hm ho
        · rw [List.mem_singleton.mp hm] at ho
          simp at ho
      · intro b0 l1 hm1 l2 hm2 ho1 ho2
        rcases List.mem_append.mp hm1 with hma | hma
        · rcases List.mem_append.mp hm2 with hmb | hmb
          · exact I5 b0 l1 hma l2 hmb ho1 ho2
          · rw [List.mem_singleton.mp hmb] at ho2
            unfold sysOutstanding Loan.is_system_loan at ho2
            simp only [Bool.and_eq_true, Bool.or_eq_true, decide_eq_true_eq] at ho2
            exact absurd ho2.1.1 hsys
        · rw [List.mem_singleton.mp hma] at ho1
          unfold sysOutstanding Loan.is_system_loan at ho1
          simp only [Bool.and_eq_true, Bool.or_eq_true, decide_eq_true_eq] at ho1
          exact absurd ho1.1.1 hsys

theorem inv_confirm (st : St) (now : Nat) (lid : Nat) (uid : String)
    (hinv : InvLoan (st, now)) : InvLoan ((confirm_loan st lid uid now).2, now) := by
  simp only [confirm_loan]
  cases hl : getLoanById st.loans lid with
  | none => exact hinv
  | some loan =>
      dsimp only
      by_cases h1 : loan.borrower_id ≠ uid
      · rw [if_pos h1]
        exact hinv
      · rw [if_neg h1]
        by_cases h2 : loan.status ≠ "pending"
        · rw [if_pos h2]
          exact hinv
        · rw [if_neg h2]
          cases hlu : getUser st loan.lender_id with
          | none => exact hinv
          | some lu =>
              dsimp only
              by_cases h3 : lu.coins < loan.principal
              · rw [if_pos h3]
                exact hinv
              · rw [if_neg h3]
                have hpend : loan.status = "pending" := not_ne_iff.mp h2
                have hmem : loan ∈ st.loans := (getLoanById_mem hl).1
                have hid : loan.loan_id = lid := (getLoanById_mem hl).2
                unfold InvLoan at hinv ⊢
                dsimp only at hinv ⊢
                obtain ⟨I1, I2, I3, I4, I5⟩ := hinv
                have hplender : loan.lender_id ≠ "SYSTEM" := I3 loan hmem hpend
                have hout : ∀ b0 l, l ∈ st.loans →
                    sysOutstanding b0 (if l.loan_id = lid
                      then { l with status := "active", borrowed_at := now } else l) = true →
                    sysOutstanding b0 l = true := by
                  intro b0 l hm ho
                  by_cases h4 : l.loan_id = lid
                  · rw [if_pos h4] at ho
                    have hleq : l = loan := mem_keyed_eq I1 hm hmem (by rw [h4, hid])
                    exfalso
                    unfold sysOutstanding Loan.is_system_loan at ho
                    simp only [Bool.and_eq_true, decide_eq_true_eq] at ho
                    apply hplender
                    rw [← hleq]
                    exact ho.1.1
                  · rw [if_neg h4] at ho
                    exact ho
                refine ⟨?_, ?_, ?_, ?_, ?_⟩
                · have hids : ((st.loans.map (fun l => if l.loan_id = lid
                      then { l with status := "active", borrowed_at := now } else l)).map
                        (fun l => l.loan_id))
                      = st.loans.map (fun l => l.loan_id) := by
                    rw [List.map_map]
                    refine List.map_congr_left ?_
                    intro l _
                    by_cases h4 : l.loan_id = lid <;> simp [Function.comp, h4]
                  rw [hids]
                  exact I1
                · intro l2 hm2
                  rcases List.mem_map.mp hm2 with ⟨l, hm, heq⟩
                  rw [← heq]
                  by_cases h4 : l.loan_id = lid
                  · rw [if_pos h4]
                    exact I2 l hm
                  · rw [if_neg h4]
                    exact I2 l hm
                · intro l2 hm2 hp
                  rcases List.mem_map.mp hm2 with ⟨l, hm, heq⟩
                  rw [← heq] at hp ⊢
                  by_cases h4 : l.loan_id = lid
                  · rw [if_pos h4] at hp
                    simp at hp
                  · rw [if_neg h4] at hp ⊢
                    exact I3 l hm hp
                · intro l2 hm2 ho
                  rcases List.mem_map.mp hm2 with ⟨l, hm, heq⟩
                  rw [← heq] at ho ⊢
                  by_cases h4 : l.loan_id = lid
                  · rw [if_pos h4] at ho
                    simp at ho
                  · rw [if_neg h4] at ho ⊢
                    exact I4 l hm ho
                · intro b0 l1m hm1 l2m hm2 ho1 ho2
                  rcases List.mem_map.mp hm1 with ⟨l1, hma, heqa⟩
                  rcases List.mem_map.mp hm2 with ⟨l2, hmb, heqb⟩
                  rw [← heqa] at ho1 ⊢
                  rw [← heqb] at ho2 ⊢
                  have e := I5 b0 l1 hma l2 hmb (hout b0 l1 hma ho1) (hout b0 l2 hmb ho2)
                  rw [e]

theorem inv_mark (st : St) (now : Nat) (lid : Nat)
    (hinv : InvLoan (st, now)) : InvLoan (mark_overdue st lid now, now) := by
  simp only [mark_overdue]
  cases hl : getLoanById st.loans lid with
  | none => exact hinv
  | some loan =>
      dsimp only
      by_cases h1 : (loan.is_overdue now && decide (loan.status = "active")) = true
      · rw [if_pos h1]
        have hmem : loan ∈ st.loans := (getLoanById_mem hl).1
        have hid : loan.loan_id = lid := (getLoanById_mem hl).2
        simp only [Bool.and_eq_true, decide_eq_true_eq] at h1
        obtain ⟨hov, hact⟩ := h1
        unfold Loan.is_overdue at hov
        by_cases hsl : loan.lender_id = "SYSTEM"
        case neg =>
          rw [if_neg hsl] at hov
          simp at hov
        rw [if_pos hsl] at hov
        cases hdd : loan.due_date with
        | none =>
            rw [hdd] at hov
            simp at hov
        | some d =>
            rw [hdd] at hov
            dsimp only at hov
            by_cases hpaid : loan.status = "paid"
            · rw [if_pos hpaid] at hov
              simp at hov
            · rw [if_neg hpaid] at hov
              have hdlt : d < now := of_decide_eq_true hov
              unfold InvLoan at hinv ⊢
              dsimp only at hinv ⊢
              obtain ⟨I1, I2, I3, I4, I5⟩ := hinv
              unfold setLoan
              have hout : ∀ b0 l, l ∈ st.loans →
                  sysOutstanding b0 (if l.loan_id = lid
                    then { l with repaid_amount := loan.repaid_amount, status := "overdue" }
                    else l) = true →
                  sysOutstanding b0 l = true := by
                intro b0 l hm ho
                by_cases h4 : l.loan_id = lid
                · rw [if_pos h4] at ho
                  have hleq : l = loan := mem_keyed_eq I1 hm hmem (by rw [h4, hid])
                  unfold sysOutstanding Loan.is_system_loan at ho ⊢
                  simp only [Bool.and_eq_true, Bool.or_eq_true, decide_eq_true_eq] at ho ⊢
                  refine ⟨⟨ho.1.1, ho.1.2⟩, Or.inl ?_⟩
                  rw [hleq]
                  exact hact
                · rw [if_neg h4] at ho
                  exact ho
              refine ⟨?_, ?_, ?_, ?_, ?_⟩
              · have hids : ((st.loans.map (fun l => if l.loan_id = lid
                    then { l with repaid_amount := loan.repaid_amount, status := "overdue" }
                    else l)).map (fun l => l.loan_id))
                    = st.loans.map (fun l => l.loan_id) := by
                  rw [List.map_map]
                  refine List.map_congr_left ?_
                  intro l _
                  by_cases h4 : l.loan_id = lid <;> simp [Function.comp, h4]
                rw [hids]
                exact I1
              · intro l2 hm2
                rcases List.mem_map.mp hm2 with ⟨l, hm, heq⟩
                rw [← heq]
                by_cases h4 : l.loan_id = lid
                · rw [if_pos h4]
                  exact I2 l hm
                · rw [if_neg h4]
                  exact I2 l hm
              · intro l2 hm2 hp
                rcases List.mem_map.mp hm2 with ⟨l, hm, heq⟩
                rw [← heq] at hp ⊢
                by_cases h4 : l.loan_id = lid
                · rw [if_pos h4] at hp
                  simp at hp
                · rw [if_neg h4] at hp ⊢
                  exact I3 l hm hp
              · intro l2 hm2 ho
                rcases List.mem_map.mp hm2 with ⟨l, hm, heq⟩
                rw [← heq] at ho ⊢
                by_cases h4 : l.loan_id = lid
                · rw [if_pos h4]
                  have hleq : l = loan := mem_keyed_eq I1 hm hmem (by rw [h4, hid])
                  refine ⟨?_, d, ?_, hdlt⟩
                  · show l.lender_id = "SYSTEM"
                    rw [hleq]
                    exact hsl
                  · show l.due_date = some d
                    rw [hleq]
                    exact hdd
                · rw [if_neg h4] at ho ⊢
                  exact I4 l hm ho
              · intro b0 l1m hm1 l2m hm2 ho1 ho2
                rcases List.mem_map.mp hm1 with ⟨l1, hma, heqa⟩
                rcases List.mem_map.mp hm2 with ⟨l2, hmb, heqb⟩
                rw [← heqa] at ho1 ⊢
                rw [← heqb] at ho2 ⊢
                have e := I5 b0 l1 hma l2 hmb (hout b0 l1 hma ho1) (hout b0 l2 hmb ho2)
                rw [e]
      · rw [if_neg h1]
        exact hinv

theorem inv_borrow (cfg : Cfg) (st : St) (now : Nat) (b : String) (amt : Option Int)
    (hinv : InvLoan (st, now)) : InvLoan ((borrow_from_system cfg st b amt now).2, now) := by
  simp only [borrow_from_system]
  cases hb : getUser st b with
  | none => exact hinv
  | some bu =>
      dsimp only
      by_cases h1 : (getActiveSystemLoan st b).isSome
      · rw [if_pos h1]
        exact hinv
      · rw [if_neg h1]
        by_cases h2 : hasOverdueSystemLoan st b now = true
        · rw [if_pos h2]
          exact hinv
        · rw [if_neg h2]
          by_cases h3 : pyCap bu.max_coins cfg.system_loan_ratio ≤ 0
          · rw [if_pos h3]
            exact hinv
          · rw [if_neg h3]
            split
            · exact hinv
            · rename_i amt2 heq
              by_cases h5 : (update_coins st b amt2).1 = true
              · rw [if_pos h5]
                dsimp only
                have hlo : (update_coins st b amt2).2.loans = st.loans :=
                  (update_coins_loans st b amt2).1
                have hnone : getActiveSystemLoan st b = none := by
                  cases hg : getActiveSystemLoan st b with
                  | none => rfl
                  | some x =>
                      rw [hg] at h1
                      simp at h1
                have hfilter : st.loans.filter (betweenActive "SYSTEM" b) = [] := by
                  unfold getActiveSystemLoan at hnone
                  have hsortnil := List.head?_eq_none_iff.mp hnone
                  have hperm := List.perm_insertionSort descBorrow
                    (st.loans.filter (betweenActive "SYSTEM" b))
                  rw [hsortnil] at hperm
                  exact hperm.symm.eq_nil
                have hnosys : ∀ l0 ∈ st.loans, ¬ (betweenActive "SYSTEM" b l0 = true) := by
                  intro l0 hm
                  exact List.filter_eq_nil_iff.mp hfilter l0 hm
                unfold InvLoan at hinv ⊢
                dsimp only at hinv ⊢
                obtain ⟨I1, I2, I3, I4, I5⟩ := hinv
                have hnoout : ∀ l0 ∈ st.loans, ¬ (sysOutstanding b l0 = true) := by
                  intro l0 hm hcon
                  unfold sysOutstanding Loan.is_system_loan at hcon
                  simp only [Bool.and_eq_true, Bool.or_eq_true, decide_eq_true_eq] at hcon
                  obtain ⟨⟨hsys0, hb0⟩, hst0⟩ := hcon
                  rcases hst0 with hst0 | hst0
                  · apply hnosys l0 hm
                    unfold betweenActive
                    simp [hsys0, hb0, hst0]
                  · obtain ⟨_, d, hd, hdn⟩ := I4 l0 hm hst0
                    apply h2
                    unfold hasOverdueSystemLoan
                    rw [List.any_eq_true]
                    refine ⟨l0, hm, ?_⟩
                    rw [hd]
                    simp [hsys0, hb0, hst0, hdn]
                rw [hlo]
                refine ⟨?_, ?_, ?_, ?_, ?_⟩
                · rw [List.map_append]
                  refine List.Nodup.append I1 (List.nodup_singleton _) ?_
                  intro a ha hb2
                  simp at hb2
                  rcases List.mem_map.mp ha with ⟨l0, hm0, hid0⟩
                  have h6 := I2 l0 hm0
                  rw [hid0, hb2] at h6
                  exact lt_irrefl _ h6
                · intro l2 hm2
                  rcases List.mem_append.mp hm2 with hm | hm
                  · exact Nat.lt_trans (I2 l2 hm) (Nat.lt_succ_self _)
                  · rw [List.mem_singleton.mp hm]
                    exact Nat.lt_succ_self _
                · intro l2 hm2 hp
                  rcases List.mem_append.mp hm2 with hm | hm
                  · exact I3 l2 hm hp
                  · rw [List.mem_singleton.mp hm] at hp
                    simp at hp
                · intro l2 hm2 ho
                  rcases List.mem_append.mp hm2 with hm | hm
                  · exact I4 l2 hm ho
                  · rw [List.mem_singleton.mp hm] at ho
                    simp at ho
                · intro b0 l1 hm1 l2 hm2 ho1 ho2
                  rcases List.mem_append.mp hm1 with hma | hma
                  · rcases List.mem_append.mp hm2 with hmb | hmb
                    · exact I5 b0 l1 hma l2 hmb ho1 ho2
                    · exfalso
                      rw [List.mem_singleton.mp hmb] at ho2
                      unfold sysOutstanding Loan.is_system_loan at ho2
                      simp only [Bool.and_eq_true, Bool.or_eq_true,
                        decide_eq_true_eq] at ho2
                      have hb0 : b0 = b := ho2.1.2.symm
                      rw [hb0] at ho1
                      exact hnoout l1 hma ho1
                  · rcases List.mem_append.mp hm2 with hmb | hmb
                    · exfalso
                      rw [List.mem_singleton.mp hma] at ho1
                      unfold sysOutstanding Loan.is_system_loan at ho1
                      simp only [Bool.and_eq_true, Bool.or_eq_true,
                        decide_eq_true_eq] at ho1
                      have hb0 : b0 = b := ho1.1.2.symm
                      rw [hb0] at ho2
                      exact hnoout l2 hmb ho2
                    · rw [List.mem_singleton.mp hma, List.mem_singleton.mp hmb]
              · rw [if_neg h5]
                exact hinv

theorem invStep (cfg : Cfg) (p q : St × Nat) (h : Step cfg p q) (hinv : InvLoan p) :
    InvLoan q := by
  cases h with
  | create st now lender borrower pr r hns => exact inv_create st now lender borrower pr r hns hinv
  | confirm st now id uid => exact inv_confirm st now id uid hinv
  | repay st now b l amt => exact inv_repay st now b l amt hinv
  | repayAll st now b => exact inv_repayAll st now b hinv
  | collect st now l b amt => exact inv_collect st now l b amt hinv
  | borrow st now b amt => exact inv_borrow cfg st now b amt hinv
  | overdue st now id => exact inv_mark st now id hinv
  | tick st now now2 hle => exact InvLoan_of_eq st st now now2 rfl rfl hle hinv

theorem InvLoan_reachable (cfg : Cfg) (p q : St × Nat) (hinit : LoanInit p)
    (hreach : ReachableLoan cfg p q) : InvLoan q := by
  have hstart : InvLoan p := by
    unfold LoanInit at hinit
    unfold InvLoan
    rw [hinit]
    refine ⟨List.nodup_nil, ?_, ?_, ?_, ?_⟩
    · intro l hm
      simp at hm
    · intro l hm
      simp at hm
    · intro l hm
      simp at hm
    · intro b l1 hm1
      simp at hm1
  unfold ReachableLoan at hreach
  induction hreach with
  | refl => exact hstart
  | tail h1 h2 ih => exact invStep cfg _ _ h2 ih

theorem length_le_one_of_allEq {α : Type} {xs : List α} (hnd : xs.Nodup)
    (h : ∀ x ∈ xs, ∀ y ∈ xs, x = y) : xs.length ≤ 1 := by
  cases xs with
  | nil => simp
  | cons x rest =>
      cases rest with
      | nil => simp
      | cons y t =>
          exfalso
          have hxy : x = y := h x (List.mem_cons_self _ _) y
            (List.mem_cons_of_mem _ (List.mem_cons_self _ _))
          rw [List.nodup_cons] at hnd
          refine hnd.1 ?_
          rw [hxy]
          exact List.mem_cons_self y t

/-- C8: in every state reachable through the command layer from the
empty-ledger initial state, each borrower has at most one loan that is
simultaneously SYSTEM-issued and outstanding (status active or overdue), and
borrow_from_system rejects any further request from a borrower holding an
overdue system loan, whatever amount is requested. -/
theorem one_system_loan_invariant (cfg : Cfg) (p q : St × Nat)
    (hinit : LoanInit p) (hreach : ReachableLoan cfg p q) :
    (∀ b, (q.1.loans.filter (sysOutstanding b)).length ≤ 1) ∧
    (∀ b amt, (∃ l ∈ q.1.loans, l.lender_id = "SYSTEM" ∧ l.borrower_id = b ∧
        l.status = "overdue") →
      (borrow_from_system cfg q.1 b amt q.2).1 = false) := by
  have hinv := InvLoan_reachable cfg p q hinit hreach
  unfold InvLoan at hinv
  obtain ⟨I1, I2, I3, I4, I5⟩ := hinv
  constructor
  · intro b
    apply length_le_one_of_allEq
    · exact (List.Nodup.of_map _ I1).filter _
    · intro x hx y hy
      have hx2 := List.mem_filter.mp hx
      have hy2 := List.mem_filter.mp hy
      exact I5 b x hx2.1 y hy2.1 hx2.2 hy2.2
  · intro b amt hex
    obtain ⟨l, hm, hsys, hbor, hst⟩ := hex
    simp only [borrow_from_system]
    cases hb : getUser q.1 b with
    | none => rfl
    | some bu =>
        dsimp only
        by_cases h1 : (getActiveSystemLoan q.1 b).isSome
        · rw [if_pos h1]
        · rw [if_neg h1]
          have hover : hasOverdueSystemLoan q.1 b q.2 = true := by
            obtain ⟨_, d, hd, hdn⟩ := I4 l hm hst
            unfold hasOverdueSystemLoan
            rw [List.any_eq_true]
            refine ⟨l, hm, ?_⟩
            rw [hd]
            simp [hsys, hbor, hst, hdn]
          rw [if_pos hover]

/-- Witness for C8: the invariant applied to the state reached by a single
system borrow from an empty ledger. -/
theorem one_system_loan_invariant_witness :
    LoanInit (exStPlain, 0) ∧
    (∀ b, (((borrow_from_system exCfg exStPlain "alice" none 0).2.loans.filter
        (sysOutstanding b)).length ≤ 1)) ∧
    (∀ b amt, (∃ l ∈ (borrow_from_system exCfg exStPlain "alice" none 0).2.loans,
        l.lender_id = "SYSTEM" ∧ l.borrower_id = b ∧ l.status = "overdue") →
      (borrow_from_system exCfg (borrow_from_system exCfg exStPlain "alice" none 0).2
        b amt 0).1 = false) :=
  ⟨rfl,
   (one_system_loan_invariant exCfg (exStPlain, 0)
     ((borrow_from_system exCfg exStPlain "alice" none 0).2, 0) rfl
     (Relation.ReflTransGen.single (Step.borrow exStPlain 0 "alice" none))).1,
   (one_system_loan_invariant exCfg (exStPlain, 0)
     ((borrow_from_system exCfg exStPlain "alice" none 0).2, 0) rfl
     (Relation.ReflTransGen.single (Step.borrow exStPlain 0 "alice" none))).2⟩

end LoanVerif
